import Mathlib

/-!
# Monitor de sistema: the process rankers, the gauges and the screen layout

A shallow embedding of `src/final_test/main3.go` (the variant with colour bands, the
uptime line and the FPS counter; `src/test_proyect/main2.go` shares the rankers, the
table and the text drawing verbatim).

Modelling conventions.

* A Go `string` is its byte sequence (`GoString`); `len` is the number of bytes, and the
  `for i, letra := range texto` loop walks the UTF-8 encoded runes, `i` being the byte
  offset of each rune.
* A finite `float64` is the rational it denotes, and `Float64` adds the infinities and
  NaN; negative zero is not told from zero.  Products, quotients and conversions from
  integers round to the nearest binary64, ties to even (`redondear64`).  The per-process
  percentages and the CPU reading, which the program only compares and prints, are carried
  as the rationals they denote.  The conversion `int(f)` of a value outside `int64` is
  implementation-dependent in Go; the model takes the result on amd64, the least `int64`.
* `int`, `int32` and `uint64` values are unbounded integers; no arithmetic of the program
  on them comes near the machine bounds for the sizes a terminal or a process table has.
* The terminal is the log of the `SetContent` calls issued, in order, grouped by the
  statement of `actualizarPantalla` that issued them.
* `sort.Slice` belongs to the Go standard library.  The rankers take it as a parameter that
  meets the documented contract of the library; the insertion sort the library runs on
  short slices is given as an instance.
* A run-time panic (nil dereference, index out of range) is an `Except.error`.
-/

namespace Monitor

/-- A Go string: a sequence of bytes. -/
abbrev GoString := List UInt8

/-- The bytes of a string literal of the source (Go source text is UTF-8). -/
def lit (s : String) : GoString := s.data.flatMap String.utf8EncodeChar

/-- The record `Proceso` of the source. -/
structure Proceso where
  PID : Int
  Nombre : GoString
  CPU : ℚ
  RAM : ℚ
  TamanioRAM : Nat
deriving DecidableEq

/-! ## `sort.Slice` -/

/-- The shape of `sort.Slice` on a `[]Proceso`: the comparison closures of the source only
read the two elements they are asked about, so `less` is a function of the elements. -/
abbrev Ordenador := (Proceso → Proceso → Bool) → List Proceso → List Proceso

/-- The requirement the library puts on `less`: irreflexive and a transitive ordering in
the sense of `sort.Interface` (both `less` and its negation are transitive). -/
structure OrdenDebil (less : Proceso → Proceso → Bool) : Prop where
  irrefl : ∀ a, less a a = false
  trans : ∀ a b c, less a b = true → less b c = true → less a c = true
  negTrans : ∀ a b c, less a b = false → less b c = false → less a c = false

/-- The documented contract of `sort.Slice`: the slice is rearranged by swaps only, and when
`less` is an ordering no element is `less` than one that precedes it.  Nothing is promised
on the relative order of elements neither of which is `less` than the other. -/
def ContratoSortSlice (srt : Ordenador) : Prop :=
  ∀ less lista, (srt less lista).Perm lista ∧
    (OrdenDebil less → (srt less lista).Pairwise (fun a b => less b a = false))

/-- The inner loop of `insertionSortLessFunc`,
`for j := i; j > a && less(j, j-1); j-- { swap(j, j-1) }`: the element `x` moves left past
every neighbour it is `less` than.  The already sorted prefix is held reversed, nearest
neighbour first, and so is the result. -/
def desplazar (less : Proceso → Proceso → Bool) (x : Proceso) : List Proceso → List Proceso
  | [] => [x]
  | h :: t => if less x h then h :: desplazar less x t else x :: h :: t

/-- The outer loop of `insertionSortLessFunc`, `for i := a + 1; i < b; i++`: `previos` is
the sorted prefix (reversed), the second list is what is still to be inserted. -/
def insertionSortDesde (less : Proceso → Proceso → Bool) :
    List Proceso → List Proceso → List Proceso
  | previos, [] => previos.reverse
  | previos, x :: resto => insertionSortDesde less (desplazar less x previos) resto

/-- The sort that `sort.Slice` runs on a short slice, `insertionSortLessFunc` of the
library. -/
def insertionSortLessFunc : Ordenador :=
  fun less lista => insertionSortDesde less [] lista

/-- A second sort within the contract of `sort.Slice`, used to compare outcomes: the same
insertions on the slice read from its end. -/
def ordenadorInverso : Ordenador :=
  fun less lista => insertionSortLessFunc less lista.reverse

/-! ## The rankers -/

/-- The closure passed to `sort.Slice` by `ordenarPorRAM`. -/
def menorPorRAM (a b : Proceso) : Bool := decide (a.TamanioRAM > b.TamanioRAM)

/-- The closure passed to `sort.Slice` by `ordenarPorCPU`. -/
def menorPorCPU (a b : Proceso) : Bool := decide (a.CPU > b.CPU)

/-- The function `ordenarPorRAM` of the source: what it returns. -/
def ordenarPorRAM (srt : Ordenador) (lista : List Proceso) : List Proceso :=
  let lista := srt menorPorRAM lista
  if lista.length > 10 then lista.take 10 else lista

/-- The function `ordenarPorCPU` of the source: what it returns. -/
def ordenarPorCPU (srt : Ordenador) (lista : List Proceso) : List Proceso :=
  let lista := srt menorPorCPU lista
  if lista.length > 10 then lista.take 10 else lista

/-- The caller's slice after `ordenarPorRAM(lista)`: `sort.Slice` works in place on the
backing array the caller shares, so the caller sees the sorted contents, all of them. -/
def trasOrdenarPorRAM (srt : Ordenador) (lista : List Proceso) : List Proceso :=
  srt menorPorRAM lista

/-- The two rankings as `actualizarPantalla` computes them, lines 172-174: the RAM table is
drawn from `ordenarPorRAM(procesos)`, then `ordenarPorCPU(procesos)` receives the same
slice, which the first call has reordered. -/
def clasificar (srt : Ordenador) (procesos : List Proceso) : List Proceso × List Proceso :=
  (ordenarPorRAM srt procesos, ordenarPorCPU srt (trasOrdenarPorRAM srt procesos))

/-! ## Strings and formatting -/

/-- The rune `utf8.RuneError`, U+FFFD. -/
def runeError : Char := Char.ofNat 0xFFFD

/-- A continuation byte of UTF-8, `0x80..0xBF`. -/
def esContinuacion (b : UInt8) : Bool := 0x80 ≤ b && b ≤ 0xBF

/-- The rune at the head of a string and its width in bytes, as the `range` loop of Go
decodes it: an invalid or short encoding is `RuneError` of width 1. -/
def decodificarRuna : GoString → Char × Nat
  | [] => (runeError, 0)
  | b0 :: resto =>
    if b0 < 0x80 then (Char.ofNat b0.toNat, 1)
    else if 0xC2 ≤ b0 && b0 ≤ 0xDF then
      match resto with
      | b1 :: _ =>
        if esContinuacion b1 then
          (Char.ofNat ((b0.toNat % 32) * 64 + b1.toNat % 64), 2)
        else (runeError, 1)
      | [] => (runeError, 1)
    else if 0xE0 ≤ b0 && b0 ≤ 0xEF then
      match resto with
      | b1 :: b2 :: _ =>
        let lo : UInt8 := if b0 = 0xE0 then 0xA0 else 0x80
        let hi : UInt8 := if b0 = 0xED then 0x9F else 0xBF
        if lo ≤ b1 && b1 ≤ hi && esContinuacion b2 then
          (Char.ofNat ((b0.toNat % 16) * 4096 + (b1.toNat % 64) * 64 + b2.toNat % 64), 3)
        else (runeError, 1)
      | _ => (runeError, 1)
    else if 0xF0 ≤ b0 && b0 ≤ 0xF4 then
      match resto with
      | b1 :: b2 :: b3 :: _ =>
        let lo : UInt8 := if b0 = 0xF0 then 0x90 else 0x80
        let hi : UInt8 := if b0 = 0xF4 then 0x8F else 0xBF
        if lo ≤ b1 && b1 ≤ hi && esContinuacion b2 && esContinuacion b3 then
          (Char.ofNat ((b0.toNat % 8) * 262144 + (b1.toNat % 64) * 4096
            + (b2.toNat % 64) * 64 + b3.toNat % 64), 4)
        else (runeError, 1)
      | _ => (runeError, 1)
    else (runeError, 1)

/-- The number of runes of a string, `utf8.RuneCountInString`: `saltar` is the number of
bytes still belonging to the rune under way. -/
def contarRunasDesde : Nat → GoString → Nat
  | _, [] => 0
  | 0, b :: resto => 1 + contarRunasDesde ((decodificarRuna (b :: resto)).2 - 1) resto
  | saltar + 1, _ :: resto => contarRunasDesde saltar resto

/-- The rune count `fmt` pads by. -/
def contarRunas (s : GoString) : Nat := contarRunasDesde 0 s

/-- The flag `-` with a width: spaces are added on the right up to `ancho` runes. -/
def padDerecha (ancho : Nat) (s : GoString) : GoString :=
  s ++ List.replicate (ancho - contarRunas s) 0x20

/-- The decimal digits of a natural number. -/
def decimal (n : Nat) : GoString := lit (Nat.repr n)

/-- The verb `%d`. -/
def fmtD (z : Int) : GoString :=
  if z < 0 then lit "-" ++ decimal z.natAbs else decimal z.natAbs

/-- The verb `%02d`: zeros are added after the sign up to two characters. -/
def fmtD02 (z : Int) : GoString :=
  if z < 0 then lit "-" ++ List.replicate (1 - (decimal z.natAbs).length) 0x30 ++ decimal z.natAbs
  else List.replicate (2 - (decimal z.natAbs).length) 0x30 ++ decimal z.natAbs

/-- Rounding of a non-negative rational to the nearest natural number, ties to even: the
rounding `strconv` applies to the exact value of a float. -/
def redondear (q : ℚ) : Nat :=
  let n := q.floor.toNat
  let r := q - n
  if r < 1 / 2 then n else if 1 / 2 < r then n + 1 else if n % 2 = 0 then n else n + 1

/-- The verb `%.Nf` with `N = prec`. -/
def fmtF (prec : Nat) (q : ℚ) : GoString :=
  let m := redondear (|q| * 10 ^ prec)
  let frac := decimal (m % 10 ^ prec)
  (if q < 0 then lit "-" else []) ++ decimal (m / 10 ^ prec)
    ++ (if prec = 0 then [] else lit "." ++ List.replicate (prec - frac.length) 0x30 ++ frac)

/-- The conversion `int(f)` of a float: truncation toward zero. -/
def truncar (q : ℚ) : Int := Int.tdiv q.num q.den

/-! ## Binary64 arithmetic -/

/-- The loop of a binary logarithm: the number of halvings that bring `n` below 2. -/
def log2Desde : Nat → Nat → Nat
  | 0, _ => 0
  | combustible + 1, n => if n < 2 then 0 else log2Desde combustible (n / 2) + 1

/-- The position of the leading bit of `n`. -/
def log2 (n : Nat) : Nat := log2Desde n n

/-- The power of two `2 ^ e` as a rational. -/
def dosALa (e : Int) : ℚ :=
  if 0 ≤ e then ((2 ^ e.toNat : Nat) : ℚ) else 1 / ((2 ^ (-e).toNat : Nat) : ℚ)

/-- The binary exponent of a positive rational: the `e` with `2 ^ e ≤ q < 2 ^ (e + 1)`. -/
def exponente (q : ℚ) : Int :=
  let e0 : Int := (log2 q.num.natAbs : Int) - (log2 q.den : Int)
  if dosALa e0 ≤ q then e0 else e0 - 1

/-- Rounding to the nearest number with a 53-bit significand, ties to even, with the
gradual underflow of binary64 below `2 ^ -1022` and no bound above. -/
def redondearQ (q : ℚ) : ℚ :=
  if q = 0 then 0
  else
    let u := dosALa (max (exponente |q|) (-1022) - 52)
    if q < 0 then -((redondear (|q| / u) : ℚ) * u) else (redondear (|q| / u) : ℚ) * u

/-- A `float64` value. -/
inductive Float64
  | finito (q : ℚ)
  | infinito (negativo : Bool)
  | nan
deriving DecidableEq

/-- A small integer constant of the source as a `float64`. -/
instance (n : Nat) : OfNat Float64 n := ⟨.finito (n : ℚ)⟩

/-- The `float64` nearest to a rational; past the largest finite value it is an infinity. -/
def redondear64 (q : ℚ) : Float64 :=
  if dosALa 1024 ≤ |redondearQ q| then .infinito (decide (q < 0)) else .finito (redondearQ q)

/-- The conversion `float64(n)` of a `uint64`. -/
def Float64.deNat (n : Nat) : Float64 := redondear64 (n : ℚ)

/-- The conversion `float64(n)` of an `int`. -/
def Float64.deInt (n : Int) : Float64 := redondear64 (n : ℚ)

/-- The product of two `float64`. -/
def Float64.mul : Float64 → Float64 → Float64
  | .finito a, .finito b => redondear64 (a * b)
  | .finito a, .infinito s => if a = 0 then .nan else .infinito (xor s (decide (a < 0)))
  | .infinito s, .finito a => if a = 0 then .nan else .infinito (xor s (decide (a < 0)))
  | .infinito s, .infinito t => .infinito (xor s t)
  | _, _ => .nan

/-- The quotient of two `float64`. -/
def Float64.div : Float64 → Float64 → Float64
  | .finito a, .finito b =>
    if b = 0 then (if a = 0 then .nan else .infinito (decide (a < 0))) else redondear64 (a / b)
  | .finito _, .infinito _ => .finito 0
  | .infinito s, .finito b => .infinito (xor s (decide (b < 0)))
  | _, _ => .nan

/-- The comparison `a > b` of two `float64`; it is false when either is NaN. -/
def Float64.mayor : Float64 → Float64 → Bool
  | .finito a, .finito b => decide (a > b)
  | .finito _, .infinito s => s
  | .infinito s, .finito _ => !s
  | .infinito s, .infinito t => !s && t
  | _, _ => false

/-- The conversion `int(f)`: truncation toward zero, and the least `int64` when the value
does not fit. -/
def Float64.aEntero : Float64 → Int
  | .finito q =>
    if -9223372036854775808 ≤ truncar q ∧ truncar q < 9223372036854775808 then truncar q
    else -9223372036854775808
  | _ => -9223372036854775808

/-- The verb `%.Nf` on a `float64`. -/
def fmtF64 (prec : Nat) : Float64 → GoString
  | .finito q => fmtF prec q
  | .infinito false => lit "+Inf"
  | .infinito true => lit "-Inf"
  | .nan => lit "NaN"

/-! ## The terminal -/

/-- The run-time panics the program can raise. -/
inductive Panico
  | nilDereference
  | indexOutOfRange
  | sliceBoundsOutOfRange
deriving DecidableEq

/-- The `tcell` colours the source names. -/
inductive Color
  | Black | White | Yellow | Green | Red | Blue | Gray | DarkGray | Color104
deriving DecidableEq

/-- The `tcell.Style` values the source builds. -/
inductive Style
  | Default
  | Foreground (c : Color)
  | Background (c : Color)
deriving DecidableEq

/-- One call `t.SetContent(x, y, simbolo, nil, estilo)`. -/
structure Celda where
  x : Int
  y : Int
  simbolo : Char
  estilo : Style
deriving DecidableEq

/-- The loop of `dibujarTexto`, `for i, letra := range texto`: `i` is the byte offset and
`saltar` the number of bytes still belonging to the rune just drawn. -/
def dibujarTextoDesde (x y : Int) (estilo : Style) : Nat → Nat → GoString → List Celda
  | _, _, [] => []
  | i, 0, b :: resto =>
    ⟨x + i, y, (decodificarRuna (b :: resto)).1, estilo⟩ ::
      dibujarTextoDesde x y estilo (i + 1) ((decodificarRuna (b :: resto)).2 - 1) resto
  | i, saltar + 1, _ :: resto => dibujarTextoDesde x y estilo (i + 1) saltar resto

/-- The function `dibujarTexto` of the source. -/
def dibujarTexto (x y : Int) (texto : GoString) (estilo : Style) : List Celda :=
  dibujarTextoDesde x y estilo 0 0 texto

/-- The lines of `dibujarTitulo`. -/
def lineasTitulo : List GoString :=
  [lit "MONITOR DE SISTEMA",
   lit "",
   lit "by: Daniela Davila | Santiago Avila | Diego Vitela ",
   lit "",
   lit ("Este proyecto es un monitor del sistema en tiempo real escrito en Go, disenado para "
     ++ "ejecutarse en la terminal con una interfaz visual tipo consola usando la biblioteca tcell."),
   lit ("Su proposito es ofrecer una vision clara y eficiente del rendimiento del sistema, "
     ++ "mostrando el uso de CPU, memoria RAM, interfaces de red y los procesos más demandantes "
     ++ "ordenados por consumo de recursos."),
   lit "",
   lit "",
   lit "-> Presiona ESC para salir."]

/-- The loop of `dibujarTitulo`, `for i, linea := range titulo`. -/
def dibujarLineas (x y : Int) : Nat → List GoString → List Celda
  | _, [] => []
  | i, linea :: resto =>
    dibujarTexto x (y + i) linea (.Foreground .White) ++ dibujarLineas x y (i + 1) resto

/-- The function `dibujarTitulo` of the source. -/
def dibujarTitulo (x y : Int) : List Celda := dibujarLineas x y 0 lineasTitulo

/-- The first statement of `dibujarBarra`,
`llenado := int(float64(ancho-2) * valor / 100)`. -/
def llenadoBarra (ancho : Int) (valor : Float64) : Int :=
  (((Float64.deInt (ancho - 2)).mul valor).div 100).aEntero

/-- The function `dibujarBarra` of the source. -/
def dibujarBarra (x y ancho : Int) (titulo : GoString) (valor : Float64) (texto : GoString) :
    List Celda :=
  let llenado : Int := llenadoBarra ancho valor
  let color : Color :=
    if valor.mayor 80 then .Red else if valor.mayor 50 then .Yellow else .Green
  dibujarTexto x y (titulo ++ lit ": " ++ texto) (.Foreground .Yellow)
    ++ [⟨x, y + 1, '[', .Default⟩]
    ++ (List.range (ancho - 2).toNat).map (fun i =>
        ⟨x + 1 + i, y + 1, ' ',
          if (i : Int) < llenado then .Background color else .Background .DarkGray⟩)
    ++ [⟨x + ancho - 1, y + 1, ']', .Default⟩]

/-- The function `cortar` of the source; the slice expression `s[:max-3]` panics when
`max - 3` is negative. -/
def cortar (s : GoString) (max : Int) : Except Panico GoString :=
  if (s.length : Int) ≤ max then .ok s
  else if max - 3 < 0 then .error .sliceBoundsOutOfRange
  else .ok (s.take (max - 3).toNat ++ lit "...")

/-- The name column of a table row, `cortar(p.Nombre, 20)`; at width 20 `cortar` returns. -/
def nombreFila (p : Proceso) : GoString :=
  match cortar p.Nombre 20 with
  | .ok s => s
  | .error _ => []

/-- The text of a table row,
`fmt.Sprintf("%-6d %-20s %-8.1f %-8.1f", p.PID, cortar(p.Nombre, 20), p.CPU, p.RAM)`. -/
def textoFila (p : Proceso) : GoString :=
  padDerecha 6 (fmtD p.PID) ++ lit " " ++ padDerecha 20 (nombreFila p) ++ lit " "
    ++ padDerecha 8 (fmtF 1 p.CPU) ++ lit " " ++ padDerecha 8 (fmtF 1 p.RAM)

/-- The style of a table row. -/
def estiloFila (p : Proceso) : Style :=
  if p.CPU > 80 ∨ p.RAM > 80 then .Foreground .Red
  else if p.CPU > 50 ∨ p.RAM > 50 then .Foreground .Yellow
  else .Foreground .Green

/-- The loop of `dibujarTabla`, `for i, p := range lista`, with its `break`. -/
def dibujarFilas (x y alto : Int) : Nat → List Proceso → List Celda
  | _, [] => []
  | i, p :: resto =>
    if (i : Int) ≥ alto - 3 then []
    else dibujarTexto x (y + 2 + i) (textoFila p) (estiloFila p)
      ++ dibujarFilas x y alto (i + 1) resto

/-- The function `dibujarTabla` of the source; its parameter `ancho` is not used. -/
def dibujarTabla (x y _ancho alto : Int) (titulo : GoString) (lista : List Proceso) :
    List Celda :=
  dibujarTexto x y titulo (.Foreground .Yellow)
    ++ dibujarTexto x (y + 1) (lit "PID   Nombre                CPU%     RAM%")
        (.Foreground .Green)
    ++ dibujarFilas x y alto 0 lista

/-! ## The metric sources -/

/-- What `mem.VirtualMemory` returns, the fields the source reads. -/
structure VirtualMemoryStat where
  Total : Nat
  Used : Nat
  Free : Nat
deriving DecidableEq

/-- What `net.IOCounters` returns per entry, the fields the source reads. -/
structure IOCountersStat where
  Name : GoString
  BytesSent : Nat
  BytesRecv : Nat
  PacketsSent : Nat
  PacketsRecv : Nat
deriving DecidableEq

/-- What `net.Interfaces` returns per entry: the name and `addr.String()` of each address. -/
structure InterfaceStat where
  Name : GoString
  Addrs : List GoString
deriving DecidableEq

/-- What `process.Processes` and the per-process queries return: the values left in the
variables when the errors are discarded, `ramInfo` being `none` for a nil `MemoryInfo`. -/
structure ProcesoSO where
  Pid : Int
  nombre : GoString
  cpuPorc : ℚ
  ramPorc : ℚ
  ramInfo : Option Nat
deriving DecidableEq

/-- The answers of the metric sources during one tick.  A failed source leaves its zero
value behind since every error is discarded: `none` for the nil pointer of
`mem.VirtualMemory`, the empty list for a nil slice; `uptime` is `none` when `host.Uptime`
returns an error. -/
structure Lectura where
  memoria : Option VirtualMemoryStat
  cpuUso : List ℚ
  netDatos : List IOCountersStat
  interfaces : List InterfaceStat
  netStats : List IOCountersStat
  uptime : Option Nat
  procesos : List ProcesoSO

/-- The function `obtenerProcesos` of the source. -/
def obtenerProcesos (lista : List ProcesoSO) : List Proceso :=
  lista.filterMap (fun p =>
    match p.ramInfo with
    | some rss => some ⟨p.Pid, p.nombre, p.cpuPorc, p.ramPorc, rss⟩
    | none => none)

/-- The text of one interface in `obtenerInfoInterfacesRed`. -/
def infoInterfaz (iface : InterfaceStat) (stat : IOCountersStat) : GoString :=
  iface.Name ++ lit " - Recibido: " ++ fmtF64 2 ((Float64.deNat stat.BytesRecv).div 1000000)
    ++ lit "MB, Enviado: " ++ fmtF64 2 ((Float64.deNat stat.BytesSent).div 1000000)
    ++ lit "MB, Paquetes: " ++ decimal stat.PacketsRecv ++ lit " recibidos, "
    ++ decimal stat.PacketsSent ++ lit " enviados"
    ++ iface.Addrs.flatMap (fun addr => lit ", IP: " ++ addr)

/-- The function `obtenerInfoInterfacesRed` of the source: one entry per interface that has
an entry of the same name in the per-interface counters. -/
def obtenerInfoInterfacesRed (interfaces : List InterfaceStat)
    (netStats : List IOCountersStat) : List GoString :=
  interfaces.filterMap (fun iface =>
    match netStats.find? (fun stat => stat.Name == iface.Name) with
    | some stat => some (infoInterfaz iface stat)
    | none => none)

/-- The function `obtenerUptime` of the source. -/
def obtenerUptime (uptime : Option Nat) : GoString :=
  match uptime with
  | none => lit "Tiempo activo: No disponible"
  | some segundosTotales =>
    let horasTotales : Int := truncar ((segundosTotales : ℚ) / 3600)
    let minutosTotales : Int := truncar ((segundosTotales : ℚ) / 60)
    let dias := Int.tdiv horasTotales 24
    let horas := Int.tmod horasTotales 24
    let minutos := Int.tmod minutosTotales 60
    let segundos := Int.tmod (truncar (segundosTotales : ℚ)) 60
    lit "Tiempo activo: " ++ fmtD dias ++ lit "d " ++ fmtD02 horas ++ lit "h "
      ++ fmtD02 minutos ++ lit "m " ++ fmtD02 segundos ++ lit "s"

/-! ## One tick -/

/-- The `SetContent` calls of one `actualizarPantalla`, by the statement that issues them. -/
structure Cuadro where
  titulo : List Celda
  encabezado : List Celda
  memoria : List Celda
  cpu : List Celda
  red : List Celda
  interfaces : List Celda
  uptime : List Celda
  tablaRAM : List Celda
  tablaCPU : List Celda

/-- The loop over `interfacesInfo` in `actualizarPantalla`, with its `break`. -/
def dibujarInterfaces : Nat → List GoString → List Celda
  | _, [] => []
  | i, info :: resto =>
    if i > 3 then []
    else dibujarTexto 1 (10 + i) info (.Foreground .Blue) ++ dibujarInterfaces (i + 1) resto

/-- The memory percentage, `float64(memoria.Used) / float64(memoria.Total) * 100`. -/
def usoMem (memoria : VirtualMemoryStat) : Float64 :=
  ((Float64.deNat memoria.Used).div (Float64.deNat memoria.Total)).mul 100

/-- The label of the memory gauge. -/
def textoMemoria (memoria : VirtualMemoryStat) (uso : Float64) : GoString :=
  lit "Total: " ++ fmtF64 1 ((Float64.deNat memoria.Total).div 1000000000)
    ++ lit "GB Usada: " ++ fmtF64 1 ((Float64.deNat memoria.Used).div 1000000000)
    ++ lit "GB Libre: " ++ fmtF64 1 ((Float64.deNat memoria.Free).div 1000000000)
    ++ lit "GB (" ++ fmtF64 1 uso ++ lit "%)"

/-- The function `actualizarPantalla` of the source, on a terminal of `ancho` columns and
`alto` rows (`t.Size()`). -/
def actualizarPantalla (srt : Ordenador) (l : Lectura) (ancho alto : Int) :
    Except Panico Cuadro :=
  let titulo := dibujarTitulo 1 40
  let memY : Int := 20
  let encabezado := dibujarTexto 1 memY (lit "Información del sistema") (.Foreground .White)
  match l.memoria with
  | none => .error .nilDereference
  | some memoria =>
    let barraMem := dibujarBarra 1 1 (ancho - 2) (lit "Memoria") (usoMem memoria)
      (textoMemoria memoria (usoMem memoria))
    match l.cpuUso with
    | [] => .error .indexOutOfRange
    | usoCPU :: _ =>
      let barraCPU := dibujarBarra 1 4 (ancho - 2) (lit "CPU") (.finito usoCPU)
        (lit "Uso: " ++ fmtF 1 usoCPU ++ lit "%")
      match l.netDatos with
      | [] => .error .indexOutOfRange
      | net0 :: _ =>
        let netInfo := lit "Red - Recibido: "
          ++ fmtF64 2 ((Float64.deNat net0.BytesRecv).div 1000000)
          ++ lit "MB  Enviado: "
          ++ fmtF64 2 ((Float64.deNat net0.BytesSent).div 1000000) ++ lit "MB"
        let interfacesInfo := obtenerInfoInterfacesRed l.interfaces l.netStats
        let maxInterfaces : Int :=
          if (interfacesInfo.length : Int) < 3 then interfacesInfo.length else 3
        let lineaUptime := 11 + maxInterfaces
        let lineaInicioTablas := lineaUptime + 2
        let altoTablas := alto - lineaInicioTablas - 2
        let procesos := obtenerProcesos l.procesos
        let porRAM := (clasificar srt procesos).1
        let porCPU := (clasificar srt procesos).2
        .ok {
          titulo := titulo
          encabezado := encabezado
          memoria := barraMem
          cpu := barraCPU
          red := dibujarTexto 1 7 netInfo (.Foreground .Green)
          interfaces := dibujarTexto 1 9 (lit "Interfaces de Red:") (.Foreground .Yellow)
            ++ dibujarInterfaces 0 interfacesInfo
          uptime := dibujarTexto 1 lineaUptime (obtenerUptime l.uptime) (.Foreground .Gray)
          tablaRAM := dibujarTabla 1 15 (Int.tdiv ancho 2 - 1) altoTablas (lit "+ RAM") porRAM
          tablaCPU := dibujarTabla (Int.tdiv ancho 2 + 1) 15 (Int.tdiv ancho 2 - 2) altoTablas
            (lit "+ CPU") porCPU }

/-! ## Vocabulary of the statements -/

/-- Ties keep the order of a reference list: whenever two records of equal key appear one
before the other in `salida`, they appear in that order in `ref`. -/
def EmpatesEnOrden {κ : Type} (clave : Proceso → κ) (ref salida : List Proceso) : Prop :=
  ∀ a b, clave a = clave b → List.Sublist [a, b] salida → List.Sublist [a, b] ref

/-- A track cell drawn in the fill colour of a gauge: any background but the dark gray of the
empty track. -/
def esRelleno (c : Celda) : Bool :=
  match c.estilo with
  | .Background .DarkGray => false
  | .Background _ => true
  | _ => false

/-- The number of cells drawn in the fill colour. -/
def celdasLlenas (cs : List Celda) : Nat := (cs.filter esRelleno).length

/-- The three bands of the specification. -/
inductive Banda
  | nominal | warning | alert
deriving DecidableEq

/-- The banding rule in the words of the specification: above 80 alert, above 50 warning,
nominal otherwise. -/
def bandFor (valor : ℚ) : Banda :=
  if valor > 80 then .alert else if valor > 50 then .warning else .nominal

/-- The colour the program gives each band. -/
def colorDeBanda : Banda → Color
  | .alert => .Red
  | .warning => .Yellow
  | .nominal => .Green

/-- Two groups of calls touch no common cell. -/
def Disjuntas (a b : List Celda) : Prop :=
  ∀ c ∈ a, ∀ d ∈ b, ¬ (c.x = d.x ∧ c.y = d.y)

/-- Two processes tied on CPU, enumerated `tieX` first; `tieY` has the larger RSS. -/
def tieX : Proceso := ⟨101, lit "x", 5, 1, 1000⟩

/-- The second of the two tied processes. -/
def tieY : Proceso := ⟨102, lit "y", 5, 1, 2000⟩

/-- A reading in which every source answers: 16 GB of memory half used, CPU at 45 %, one
aggregate network counter, one interface, no process. -/
def lecturaSana : Lectura where
  memoria := some ⟨16000000000, 8000000000, 8000000000⟩
  cpuUso := [45]
  netDatos := [⟨lit "all", 2000000, 1000000, 20, 10⟩]
  interfaces := [⟨lit "lo", []⟩]
  netStats := [⟨lit "lo", 2000000, 1000000, 20, 10⟩]
  uptime := some 93784
  procesos := []

/-- Four interfaces, each with counters. -/
def cuatroInterfaces : List InterfaceStat :=
  [⟨lit "lo", []⟩, ⟨lit "eth0", []⟩, ⟨lit "eth1", []⟩, ⟨lit "wlan0", []⟩]

/-- The counters of the four interfaces. -/
def cuatroContadores : List IOCountersStat :=
  [⟨lit "lo", 1, 1, 1, 1⟩, ⟨lit "eth0", 2, 2, 2, 2⟩, ⟨lit "eth1", 3, 3, 3, 3⟩,
   ⟨lit "wlan0", 4, 4, 4, 4⟩]

/-- The runes of a string in order, as a `range` loop yields them; `saltar` is the number
of bytes still belonging to the rune under way. -/
def runasDesde : Nat → GoString → List Char
  | _, [] => []
  | 0, b :: resto =>
    (decodificarRuna (b :: resto)).1 :: runasDesde ((decodificarRuna (b :: resto)).2 - 1) resto
  | saltar + 1, _ :: resto => runasDesde saltar resto

/-- The characters of a string. -/
def runas (s : GoString) : List Char := runasDesde 0 s

/-- A string of ASCII characters only: every byte is below `0x80`. -/
def EsASCII (s : GoString) : Prop := ∀ b ∈ s, b < 0x80

/-- A name of 11 characters that takes 22 bytes. -/
def nombreEnie : GoString := lit "ñññññññññññ"

/-- A name of 25 characters that takes 50 bytes. -/
def nombreEnieLargo : GoString := lit "ñññññññññññññññññññññññññ"

/-- A name of 25 ASCII characters. -/
def nombreLargo : GoString := lit "un_nombre_de_proceso_2025"

/-! ## Facts about the sort -/

theorem desplazar_perm (less : Proceso → Proceso → Bool) (x : Proceso) (l : List Proceso) :
    (desplazar less x l).Perm (x :: l) := by
  induction l with
  | nil => simp [desplazar]
  | cons h t ih =>
    unfold desplazar
    split
    · exact (List.Perm.cons h ih).trans (List.Perm.swap x h t)
    · exact List.Perm.refl _

theorem insertionSortDesde_perm (less : Proceso → Proceso → Bool) (resto previos : List Proceso) :
    (insertionSortDesde less previos resto).Perm (previos.reverse ++ resto) := by
  induction resto generalizing previos with
  | nil => simp [insertionSortDesde]
  | cons x xs ih =>
    unfold insertionSortDesde
    refine (ih (desplazar less x previos)).trans ?_
    have h1 : (desplazar less x previos).reverse.Perm (x :: previos.reverse) :=
      (List.reverse_perm _).trans
        ((desplazar_perm less x previos).trans (List.Perm.cons x (List.reverse_perm _).symm))
    have h2 : (x :: previos.reverse).Perm (previos.reverse ++ [x]) :=
      (List.perm_append_singleton x previos.reverse).symm
    have h3 := (h1.trans h2).append_right xs
    simpa using h3

theorem OrdenDebil.asimetria {less : Proceso → Proceso → Bool} (h : OrdenDebil less)
    (a b : Proceso) (hab : less a b = true) : less b a = false := by
  by_contra hba
  have hba' : less b a = true := by simpa using hba
  have := h.trans a b a hab hba'
  rw [h.irrefl a] at this
  exact Bool.false_ne_true this

theorem desplazar_mem (less : Proceso → Proceso → Bool) (x y : Proceso) (l : List Proceso)
    (hy : y ∈ desplazar less x l) : y = x ∨ y ∈ l := by
  have := (desplazar_perm less x l).mem_iff.mp hy
  simpa using this

theorem desplazar_ordenada {less : Proceso → Proceso → Bool} (h : OrdenDebil less)
    (x : Proceso) (l : List Proceso) (hl : l.Pairwise (fun a b => less a b = false)) :
    (desplazar less x l).Pairwise (fun a b => less a b = false) := by
  induction l with
  | nil => simp [desplazar]
  | cons c t ih =>
    rw [List.pairwise_cons] at hl
    unfold desplazar
    split
    · rename_i hxc
      rw [List.pairwise_cons]
      refine ⟨?_, ih hl.2⟩
      intro y hy
      rcases desplazar_mem less x y t hy with rfl | hyt
      · exact h.asimetria _ _ hxc
      · exact hl.1 y hyt
    · rename_i hxc
      have hxc' : less x c = false := by simpa using hxc
      rw [List.pairwise_cons]
      refine ⟨?_, List.pairwise_cons.mpr hl⟩
      intro y hy
      rcases List.mem_cons.mp hy with rfl | hyt
      · exact hxc'
      · exact h.negTrans x c y hxc' (hl.1 y hyt)

theorem insertionSortDesde_ordenada {less : Proceso → Proceso → Bool} (h : OrdenDebil less)
    (resto previos : List Proceso) (hp : previos.Pairwise (fun a b => less a b = false)) :
    (insertionSortDesde less previos resto).Pairwise (fun a b => less b a = false) := by
  induction resto generalizing previos with
  | nil =>
    unfold insertionSortDesde
    exact List.pairwise_reverse.mpr hp
  | cons x xs ih =>
    unfold insertionSortDesde
    exact ih _ (desplazar_ordenada h x previos hp)

/-- The insertion sort of the library meets the contract of `sort.Slice`. -/
theorem insertionSortLessFunc_contrato : ContratoSortSlice insertionSortLessFunc := by
  intro less lista
  refine ⟨?_, fun h => ?_⟩
  · simpa [insertionSortLessFunc] using insertionSortDesde_perm less lista []
  · exact insertionSortDesde_ordenada h lista [] List.Pairwise.nil

theorem menorPorRAM_orden : OrdenDebil menorPorRAM where
  irrefl a := by simp [menorPorRAM]
  trans a b c := by
    simp only [menorPorRAM, decide_eq_true_eq]
    intro h1 h2
    omega
  negTrans a b c := by
    simp only [menorPorRAM, decide_eq_false_iff_not]
    intro h1 h2
    omega

theorem menorPorCPU_orden : OrdenDebil menorPorCPU where
  irrefl a := by simp [menorPorCPU]
  trans a b c := by
    simp only [menorPorCPU, decide_eq_true_eq]
    intro h1 h2
    exact lt_trans h2 h1
  negTrans a b c := by
    simp only [menorPorCPU, decide_eq_false_iff_not, not_lt, gt_iff_lt]
    intro h1 h2
    exact le_trans h1 h2

/-! ## The rankers: top ten after sorting -/

theorem tomar_diez (l : List Proceso) : (if l.length > 10 then l.take 10 else l) = l.take 10 := by
  split
  · rfl
  · rw [List.take_of_length_le (by omega)]

theorem ordenarPorRAM_eq (srt : Ordenador) (lista : List Proceso) :
    ordenarPorRAM srt lista = (srt menorPorRAM lista).take 10 := by
  unfold ordenarPorRAM
  exact tomar_diez _

theorem ordenarPorCPU_eq (srt : Ordenador) (lista : List Proceso) :
    ordenarPorCPU srt lista = (srt menorPorCPU lista).take 10 := by
  unfold ordenarPorCPU
  exact tomar_diez _

/-- The first ten of a sorted rearrangement: length, order, and what is left out. -/
theorem primeros_diez {R : Proceso → Proceso → Prop} (s lista : List Proceso)
    (hp : s.Perm lista) (hs : s.Pairwise R) :
    (s.take 10).length = min 10 lista.length ∧ (s.take 10).Pairwise R ∧
      s.take 10 = s.take (min 10 lista.length) ∧
      ∀ a ∈ s.take 10, ∀ b ∈ s.drop (min 10 lista.length), R a b := by
  have hlen : s.length = lista.length := hp.length_eq
  have hmin : s.take (min 10 lista.length) = s.take 10 := by
    rcases Nat.le_total 10 lista.length with h | h
    · rw [Nat.min_eq_left h]
    · rw [Nat.min_eq_right h, List.take_of_length_le (by omega),
        List.take_of_length_le (by omega)]
  refine ⟨?_, hs.sublist (List.take_sublist _ _), hmin.symm, ?_⟩
  · rw [List.length_take, hlen]
  · intro a ha b hb
    rw [← hmin] at ha
    have hsplit := List.take_append_drop (min 10 lista.length) s
    rw [← hsplit] at hs
    exact (List.pairwise_append.mp hs).2.2 a ha b hb

theorem ordenada_por_RAM (srt : Ordenador) (hsrt : ContratoSortSlice srt) (lista : List Proceso) :
    (srt menorPorRAM lista).Pairwise (fun a b => a.TamanioRAM ≥ b.TamanioRAM) := by
  refine ((hsrt menorPorRAM lista).2 menorPorRAM_orden).imp ?_
  intro a b h
  simp only [menorPorRAM, decide_eq_false_iff_not] at h
  omega

theorem ordenada_por_CPU (srt : Ordenador) (hsrt : ContratoSortSlice srt) (lista : List Proceso) :
    (srt menorPorCPU lista).Pairwise (fun a b => a.CPU ≥ b.CPU) := by
  refine ((hsrt menorPorCPU lista).2 menorPorCPU_orden).imp ?_
  intro a b h
  simp only [menorPorCPU, decide_eq_false_iff_not, gt_iff_lt, not_lt] at h
  exact h

/-- C1: for every list of process records `ordenarPorRAM` returns `min 10 n` records in
non-increasing order of RSS; they are the first `min 10 n` of a descending-by-RSS
rearrangement of the whole input, so every record left out has RSS at most that of every
record kept. -/
theorem ordenarPorRAM_diez_mayores (srt : Ordenador) (hsrt : ContratoSortSlice srt)
    (lista : List Proceso) :
    (ordenarPorRAM srt lista).length = min 10 lista.length ∧
    (ordenarPorRAM srt lista).Pairwise (fun a b => a.TamanioRAM ≥ b.TamanioRAM) ∧
    ∃ orden : List Proceso, orden.Perm lista ∧
      orden.Pairwise (fun a b => a.TamanioRAM ≥ b.TamanioRAM) ∧
      ordenarPorRAM srt lista = orden.take (min 10 lista.length) ∧
      ∀ a ∈ ordenarPorRAM srt lista, ∀ b ∈ orden.drop (min 10 lista.length),
        b.TamanioRAM ≤ a.TamanioRAM := by
  have hp := (hsrt menorPorRAM lista).1
  have hs := ordenada_por_RAM srt hsrt lista
  obtain ⟨h1, h2, h3, h4⟩ := primeros_diez _ lista hp hs
  rw [ordenarPorRAM_eq]
  exact ⟨h1, h2, srt menorPorRAM lista, hp, hs, h3, h4⟩

/-- C1, at an instance: the insertion sort of the library and three records. -/
theorem ordenarPorRAM_diez_mayores_witness :
    ContratoSortSlice insertionSortLessFunc ∧
    (ordenarPorRAM insertionSortLessFunc [tieX, tieY, tieX]).length
      = min 10 [tieX, tieY, tieX].length ∧
    (ordenarPorRAM insertionSortLessFunc [tieX, tieY, tieX]).Pairwise
      (fun a b => a.TamanioRAM ≥ b.TamanioRAM) :=
  ⟨insertionSortLessFunc_contrato,
    (ordenarPorRAM_diez_mayores insertionSortLessFunc insertionSortLessFunc_contrato
      [tieX, tieY, tieX]).1,
    (ordenarPorRAM_diez_mayores insertionSortLessFunc insertionSortLessFunc_contrato
      [tieX, tieY, tieX]).2.1⟩

/-- A sorted rearrangement of two records of different key is the pair in descending order. -/
theorem par_ordenado (less : Proceso → Proceso → Bool) (a b : Proceso) (s : List Proceso)
    (hp : s.Perm [a, b]) (hs : s.Pairwise (fun u v => less v u = false))
    (hba : less b a = true) : s = [b, a] := by
  have hlen : s.length = 2 := hp.length_eq
  match s, hlen with
  | [u, v], _ =>
    have hu : u = a ∨ u = b := by simpa using hp.mem_iff.mp (List.mem_cons_self u [v])
    have hv : v = a ∨ v = b := by
      simpa using hp.mem_iff.mp (List.mem_cons_of_mem u (List.mem_cons_self v []))
    have hb : b = u ∨ b = v := by simpa using hp.mem_iff.mpr (by simp : b ∈ [a, b])
    have ha : a = u ∨ a = v := by simpa using hp.mem_iff.mpr (by simp : a ∈ [a, b])
    have huv : less v u = false := by
      simp only [List.pairwise_cons, List.mem_singleton, forall_eq] at hs
      exact hs.1
    have hfalso : ∀ c d, c = b → d = a → less c d = false → False := by
      intro c d hc hd h
      rw [hc, hd, hba] at h
      exact Bool.noConfusion h
    rcases hu with hu | hu <;> rcases hv with hv | hv
    · rcases hb with hb | hb
      · exact (hfalso v u ((hv.trans hu.symm).trans hb.symm) hu huv).elim
      · exact (hfalso v u hb.symm hu huv).elim
    · exact (hfalso v u hv hu huv).elim
    · rw [hu, hv]
    · rcases ha with ha | ha
      · exact (hfalso v u hv ha.symm huv).elim
      · exact (hfalso v u hv (hu.trans (hv.symm.trans ha.symm)) huv).elim

/-- C2: for every list of process records `ordenarPorCPU` returns `min 10 n` records in
non-increasing order of the CPU percentage, the first `min 10 n` of a descending-by-CPU
rearrangement of the whole input; on the two processes A (RSS 2e9, CPU 10), B (RSS 1e9,
CPU 90) it returns B then A. -/
theorem ordenarPorCPU_diez_mayores (srt : Ordenador) (hsrt : ContratoSortSlice srt)
    (lista : List Proceso) :
    ((ordenarPorCPU srt lista).length = min 10 lista.length ∧
    (ordenarPorCPU srt lista).Pairwise (fun a b => a.CPU ≥ b.CPU) ∧
    ∃ orden : List Proceso, orden.Perm lista ∧
      orden.Pairwise (fun a b => a.CPU ≥ b.CPU) ∧
      ordenarPorCPU srt lista = orden.take (min 10 lista.length) ∧
      ∀ a ∈ ordenarPorCPU srt lista, ∀ b ∈ orden.drop (min 10 lista.length),
        b.CPU ≤ a.CPU) ∧
    ∀ (pidA pidB : Int) (nombreA nombreB : GoString) (ramA ramB : ℚ),
      ordenarPorCPU srt
          [⟨pidA, nombreA, 10, ramA, 2000000000⟩, ⟨pidB, nombreB, 90, ramB, 1000000000⟩]
        = [⟨pidB, nombreB, 90, ramB, 1000000000⟩, ⟨pidA, nombreA, 10, ramA, 2000000000⟩] := by
  constructor
  · have hp := (hsrt menorPorCPU lista).1
    have hs := ordenada_por_CPU srt hsrt lista
    obtain ⟨h1, h2, h3, h4⟩ := primeros_diez _ lista hp hs
    rw [ordenarPorCPU_eq]
    exact ⟨h1, h2, srt menorPorCPU lista, hp, hs, h3, h4⟩
  · intro pidA pidB nombreA nombreB ramA ramB
    rw [ordenarPorCPU_eq]
    have hp := (hsrt menorPorCPU
      [⟨pidA, nombreA, 10, ramA, 2000000000⟩, ⟨pidB, nombreB, 90, ramB, 1000000000⟩]).1
    have hs := (hsrt menorPorCPU
      [⟨pidA, nombreA, 10, ramA, 2000000000⟩, ⟨pidB, nombreB, 90, ramB, 1000000000⟩]).2
        menorPorCPU_orden
    have hba : menorPorCPU ⟨pidB, nombreB, 90, ramB, 1000000000⟩
        ⟨pidA, nombreA, 10, ramA, 2000000000⟩ = true := by
      simp only [menorPorCPU, decide_eq_true_eq]
      norm_num
    rw [par_ordenado menorPorCPU _ _ _ hp hs hba]
    rfl

/-- C2, at an instance: the insertion sort of the library and the two tied records. -/
theorem ordenarPorCPU_diez_mayores_witness :
    ContratoSortSlice insertionSortLessFunc ∧
    (ordenarPorCPU insertionSortLessFunc [tieX, tieY]).length = min 10 [tieX, tieY].length ∧
    ordenarPorCPU insertionSortLessFunc
        [⟨1, lit "A", 10, 0, 2000000000⟩, ⟨2, lit "B", 90, 0, 1000000000⟩]
      = [⟨2, lit "B", 90, 0, 1000000000⟩, ⟨1, lit "A", 10, 0, 2000000000⟩] :=
  ⟨insertionSortLessFunc_contrato,
    (ordenarPorCPU_diez_mayores insertionSortLessFunc insertionSortLessFunc_contrato
      [tieX, tieY]).1.1,
    (ordenarPorCPU_diez_mayores insertionSortLessFunc insertionSortLessFunc_contrato
      []).2 1 2 (lit "A") (lit "B") 0 0⟩

/-! ## Ties -/

theorem ordenadorInverso_contrato : ContratoSortSlice ordenadorInverso := by
  intro less lista
  have h := insertionSortLessFunc_contrato less lista.reverse
  exact ⟨h.1.trans (List.reverse_perm lista), h.2⟩

/-- A rearrangement of a pair is the pair or its swap. -/
theorem perm_par (a b : Proceso) (s : List Proceso) (hp : s.Perm [a, b]) :
    s = [a, b] ∨ s = [b, a] := by
  have hlen : s.length = 2 := hp.length_eq
  match s, hlen with
  | [u, v], _ =>
    have hu : u = a ∨ u = b := by simpa using hp.mem_iff.mp (List.mem_cons_self u [v])
    have hv : v = a ∨ v = b := by
      simpa using hp.mem_iff.mp (List.mem_cons_of_mem u (List.mem_cons_self v []))
    have hb : b = u ∨ b = v := by simpa using hp.mem_iff.mpr (by simp : b ∈ [a, b])
    have ha : a = u ∨ a = v := by simpa using hp.mem_iff.mpr (by simp : a ∈ [a, b])
    rcases hu with hu | hu <;> rcases hv with hv | hv
    · rcases hb with hb | hb
      · left; rw [hu, hv, hb, hu]
      · left; rw [hu, hb, hv]
    · left; rw [hu, hv]
    · right; rw [hu, hv]
    · rcases ha with ha | ha
      · right; rw [hu, hv, ha, hu]
      · right; rw [hu, ha, hv]

/-- Two descending rearrangements of the same list show the same sequence of keys. -/
theorem claves_determinadas {κ : Type} [LinearOrder κ] (clave : Proceso → κ)
    (s₁ s₂ : List Proceso) (hp : s₁.Perm s₂)
    (h₁ : s₁.Pairwise (fun a b => clave a ≥ clave b))
    (h₂ : s₂.Pairwise (fun a b => clave a ≥ clave b)) :
    s₁.map clave = s₂.map clave := by
  have hs₁ : (s₁.map clave).Sorted (fun u v => u ≥ v) := List.pairwise_map.mpr h₁
  have hs₂ : (s₂.map clave).Sorted (fun u v => u ≥ v) := List.pairwise_map.mpr h₂
  exact List.eq_of_perm_of_sorted (hp.map clave) hs₁ hs₂

/-- C3 as stated fails.  With the insertion sort the library runs on short slices, the two
processes tied on CPU come out of the CPU ranking of `actualizarPantalla` in the order
`tieY`, `tieX`, against their enumeration order, because `ordenarPorCPU` receives the slice
`ordenarPorRAM` has just sorted in place.  And whatever `sort.Slice` does within its
contract, the enumerations `tieX, tieY` and `tieY, tieX` yield the same CPU ranking, so one
of the two is not respected. -/
theorem clasificar_empates_contraejemplo :
    ContratoSortSlice insertionSortLessFunc ∧
    (clasificar insertionSortLessFunc [tieX, tieY]).2 = [tieY, tieX] ∧
    ¬ EmpatesEnOrden (fun p => p.CPU) [tieX, tieY]
        (clasificar insertionSortLessFunc [tieX, tieY]).2 ∧
    ∀ srt : Ordenador, ContratoSortSlice srt →
      ¬ EmpatesEnOrden (fun p => p.CPU) [tieX, tieY] (clasificar srt [tieX, tieY]).2 ∨
      ¬ EmpatesEnOrden (fun p => p.CPU) [tieY, tieX] (clasificar srt [tieY, tieX]).2 := by
  have hcpu : tieY.CPU = tieX.CPU := rfl
  have hne : tieX ≠ tieY := by decide
  have hXY : ¬ List.Sublist [tieY, tieX] [tieX, tieY] := by decide
  have hYX : ¬ List.Sublist [tieX, tieY] [tieY, tieX] := by decide
  have hram : menorPorRAM tieY tieX = true := by decide
  have general : ∀ srt : Ordenador, ContratoSortSlice srt →
      ¬ EmpatesEnOrden (fun p => p.CPU) [tieX, tieY] (clasificar srt [tieX, tieY]).2 ∨
      ¬ EmpatesEnOrden (fun p => p.CPU) [tieY, tieX] (clasificar srt [tieY, tieX]).2 := by
    intro srt hsrt
    have h1 : trasOrdenarPorRAM srt [tieX, tieY] = [tieY, tieX] :=
      par_ordenado menorPorRAM tieX tieY _ (hsrt menorPorRAM _).1
        ((hsrt menorPorRAM _).2 menorPorRAM_orden) hram
    have h2 : trasOrdenarPorRAM srt [tieY, tieX] = [tieY, tieX] :=
      par_ordenado menorPorRAM tieX tieY _
        ((hsrt menorPorRAM _).1.trans (List.Perm.swap tieX tieY []))
        ((hsrt menorPorRAM _).2 menorPorRAM_orden) hram
    have hlen : (srt menorPorCPU [tieY, tieX]).length = 2 := (hsrt menorPorCPU _).1.length_eq
    have htake : ordenarPorCPU srt [tieY, tieX] = srt menorPorCPU [tieY, tieX] := by
      rw [ordenarPorCPU_eq, List.take_of_length_le (by omega)]
    simp only [clasificar, h1, h2, htake]
    rcases perm_par tieY tieX _ (hsrt menorPorCPU [tieY, tieX]).1 with h | h
    · left
      intro hest
      rw [h] at hest
      exact hXY (hest tieY tieX hcpu (List.Sublist.refl _))
    · right
      intro hest
      rw [h] at hest
      exact hYX (hest tieX tieY hcpu.symm (List.Sublist.refl _))
  have hval : (clasificar insertionSortLessFunc [tieX, tieY]).2 = [tieY, tieX] := by decide
  refine ⟨insertionSortLessFunc_contrato, hval, ?_, general⟩
  intro hest
  rw [hval] at hest
  exact hXY (hest tieY tieX hcpu (List.Sublist.refl _))

/-- C3, amended: the rankers order by the metric alone.  Each ranking of
`actualizarPantalla` is in non-increasing order of its metric, and the sequence of metric
values it shows is the same for every behaviour of `sort.Slice` within its contract, so
it is fixed by the process list; nothing is said of the order of records of equal metric. -/
theorem clasificar_metricas_determinadas (srt₁ srt₂ : Ordenador)
    (h₁ : ContratoSortSlice srt₁) (h₂ : ContratoSortSlice srt₂) (procesos : List Proceso) :
    (clasificar srt₁ procesos).1.map (fun p => p.TamanioRAM)
      = (clasificar srt₂ procesos).1.map (fun p => p.TamanioRAM) ∧
    (clasificar srt₁ procesos).2.map (fun p => p.CPU)
      = (clasificar srt₂ procesos).2.map (fun p => p.CPU) ∧
    (clasificar srt₁ procesos).1.Pairwise (fun a b => a.TamanioRAM ≥ b.TamanioRAM) ∧
    (clasificar srt₁ procesos).2.Pairwise (fun a b => a.CPU ≥ b.CPU) := by
  simp only [clasificar, ordenarPorRAM_eq, ordenarPorCPU_eq, trasOrdenarPorRAM, List.map_take]
  refine ⟨?_, ?_, ?_, ?_⟩
  · rw [claves_determinadas (fun p => p.TamanioRAM) _ _
      ((h₁ menorPorRAM procesos).1.trans (h₂ menorPorRAM procesos).1.symm)
      (ordenada_por_RAM srt₁ h₁ procesos) (ordenada_por_RAM srt₂ h₂ procesos)]
  · rw [claves_determinadas (fun p => p.CPU) _ _
      (((h₁ menorPorCPU _).1.trans (h₁ menorPorRAM procesos).1).trans
        ((h₂ menorPorCPU _).1.trans (h₂ menorPorRAM procesos).1).symm)
      (ordenada_por_CPU srt₁ h₁ _) (ordenada_por_CPU srt₂ h₂ _)]
  · exact (ordenada_por_RAM srt₁ h₁ procesos).sublist (List.take_sublist _ _)
  · exact (ordenada_por_CPU srt₁ h₁ _).sublist (List.take_sublist _ _)

/-- C3 amended, at an instance: two sorts within the contract on the two tied records. -/
theorem clasificar_metricas_determinadas_witness :
    (clasificar insertionSortLessFunc [tieX, tieY]).1.map (fun p => p.TamanioRAM)
      = (clasificar ordenadorInverso [tieX, tieY]).1.map (fun p => p.TamanioRAM) ∧
    (clasificar insertionSortLessFunc [tieX, tieY]).2.map (fun p => p.CPU)
      = (clasificar ordenadorInverso [tieX, tieY]).2.map (fun p => p.CPU) :=
  ⟨(clasificar_metricas_determinadas insertionSortLessFunc ordenadorInverso
      insertionSortLessFunc_contrato ordenadorInverso_contrato [tieX, tieY]).1,
    (clasificar_metricas_determinadas insertionSortLessFunc ordenadorInverso
      insertionSortLessFunc_contrato ordenadorInverso_contrato [tieX, tieY]).2.1⟩

/-! ## Text -/

/-- Every call of a text keeps the row and the style, and starts no further left than the
column of the byte under way. -/
theorem dibujarTextoDesde_celda (x y : Int) (estilo : Style) (texto : GoString) (i saltar : Nat)
    (c : Celda) (hc : c ∈ dibujarTextoDesde x y estilo i saltar texto) :
    c.y = y ∧ c.estilo = estilo ∧ x + i ≤ c.x := by
  induction texto generalizing i saltar with
  | nil => simp [dibujarTextoDesde] at hc
  | cons b resto ih =>
    cases saltar with
    | zero =>
      simp only [dibujarTextoDesde, List.mem_cons] at hc
      rcases hc with rfl | hc
      · exact ⟨rfl, rfl, le_refl _⟩
      · obtain ⟨h1, h2, h3⟩ := ih _ _ hc
        refine ⟨h1, h2, ?_⟩
        push_cast at h3
        omega
    | succ k =>
      simp only [dibujarTextoDesde] at hc
      obtain ⟨h1, h2, h3⟩ := ih _ _ hc
      refine ⟨h1, h2, ?_⟩
      push_cast at h3
      omega

theorem dibujarTexto_celda (x y : Int) (texto : GoString) (estilo : Style) (c : Celda)
    (hc : c ∈ dibujarTexto x y texto estilo) : c.y = y ∧ c.estilo = estilo ∧ x ≤ c.x := by
  have h := dibujarTextoDesde_celda x y estilo texto 0 0 c hc
  simpa using h

theorem dibujarTexto_sin_relleno (x y : Int) (texto : GoString) (col : Color) :
    (dibujarTexto x y texto (.Foreground col)).filter esRelleno = [] := by
  rw [List.filter_eq_nil_iff]
  intro c hc
  have h := (dibujarTexto_celda x y texto _ c hc).2.1
  simp [esRelleno, h]

/-! ## Binary64 rounding -/

theorem log2Desde_cota (f n : Nat) (hn : 0 < n) (hf : n ≤ f) :
    2 ^ log2Desde f n ≤ n ∧ n < 2 ^ (log2Desde f n + 1) := by
  induction f generalizing n with
  | zero => omega
  | succ f ih =>
    unfold log2Desde
    split
    · simp
      omega
    · rename_i h
      obtain ⟨h1, h2⟩ := ih (n / 2) (by omega) (by omega)
      have e1 : 2 ^ (log2Desde f (n / 2) + 1) = 2 * 2 ^ log2Desde f (n / 2) := pow_succ' 2 _
      have e2 : 2 ^ (log2Desde f (n / 2) + 1 + 1) = 2 * 2 ^ (log2Desde f (n / 2) + 1) :=
        pow_succ' 2 _
      rw [e2]
      rw [e1] at h2 ⊢
      generalize 2 ^ log2Desde f (n / 2) = p at *
      omega

theorem log2_cota (n : Nat) (hn : 0 < n) : 2 ^ log2 n ≤ n ∧ n < 2 ^ (log2 n + 1) :=
  log2Desde_cota n n hn (le_refl n)

theorem dosALa_eq (e : Int) : dosALa e = (2 : ℚ) ^ e := by
  unfold dosALa
  split
  · rename_i h
    obtain ⟨n, rfl⟩ := Int.eq_ofNat_of_zero_le h
    simp
  · rename_i h
    obtain ⟨n, hn⟩ := Int.eq_ofNat_of_zero_le (show 0 ≤ -e by omega)
    have he : e = -(n : Int) := by omega
    subst he
    simp

theorem exponente_cota (q : ℚ) (hq : 0 < q) :
    (2 : ℚ) ^ exponente q ≤ q ∧ q < (2 : ℚ) ^ (exponente q + 1) := by
  have hnum : 0 < q.num := Rat.num_pos.mpr hq
  have hn : 0 < q.num.natAbs := Int.natAbs_pos.mpr hnum.ne'
  have hd : 0 < q.den := q.den_pos
  obtain ⟨ha1, ha2⟩ := log2_cota q.num.natAbs hn
  obtain ⟨hb1, hb2⟩ := log2_cota q.den hd
  unfold exponente
  simp only [dosALa_eq]
  have hcast : ((q.num.natAbs : ℕ) : ℚ) = (q.num : ℚ) := by
    have h1 : ((q.num.natAbs : ℕ) : ℤ) = q.num := Int.natAbs_of_nonneg hnum.le
    calc ((q.num.natAbs : ℕ) : ℚ) = (((q.num.natAbs : ℕ) : ℤ) : ℚ) := (Int.cast_natCast _).symm
      _ = (q.num : ℚ) := by rw [h1]
  have hqeq : q = ((q.num.natAbs : ℕ) : ℚ) / ((q.den : ℕ) : ℚ) := by
    rw [hcast]
    exact (Rat.num_div_den q).symm
  have ha1q : (2 : ℚ) ^ log2 q.num.natAbs ≤ ((q.num.natAbs : ℕ) : ℚ) := by
    have := (Nat.cast_le (α := ℚ)).mpr ha1
    push_cast at this
    exact this
  have ha2q : ((q.num.natAbs : ℕ) : ℚ) < (2 : ℚ) ^ (log2 q.num.natAbs + 1) := by
    have := (Nat.cast_lt (α := ℚ)).mpr ha2
    push_cast at this
    exact this
  have hb1q : (2 : ℚ) ^ log2 q.den ≤ ((q.den : ℕ) : ℚ) := by
    have := (Nat.cast_le (α := ℚ)).mpr hb1
    push_cast at this
    exact this
  have hb2q : ((q.den : ℕ) : ℚ) < (2 : ℚ) ^ (log2 q.den + 1) := by
    have := (Nat.cast_lt (α := ℚ)).mpr hb2
    push_cast at this
    exact this
  have hdq0 : (0 : ℚ) < ((q.den : ℕ) : ℚ) := by exact_mod_cast hd
  generalize log2 q.num.natAbs = a at *
  generalize log2 q.den = b at *
  generalize ((q.num.natAbs : ℕ) : ℚ) = nq at *
  generalize ((q.den : ℕ) : ℚ) = dq at *
  have hpb : (0 : ℚ) < 2 ^ b := by positivity
  have hpa : (0 : ℚ) < 2 ^ a := by positivity
  -- q < 2 ^ (a - b + 1)
  have hsup : q < (2 : ℚ) ^ ((a : ℤ) - b + 1) := by
    have : (2 : ℚ) ^ ((a : ℤ) - b + 1) = (2 : ℚ) ^ (a + 1) / 2 ^ b := by
      rw [show (a : ℤ) - b + 1 = ((a + 1 : ℕ) : ℤ) - (b : ℕ) by push_cast; ring,
        zpow_sub₀ (by norm_num), zpow_natCast, zpow_natCast]
    rw [this, hqeq, div_lt_div_iff₀ hdq0 hpb]
    calc nq * 2 ^ b < 2 ^ (a + 1) * 2 ^ b := by
          exact mul_lt_mul_of_pos_right ha2q hpb
      _ ≤ 2 ^ (a + 1) * dq := by
          exact mul_le_mul_of_nonneg_left hb1q (by positivity)
  have hinf : (2 : ℚ) ^ ((a : ℤ) - b - 1) ≤ q := by
    have : (2 : ℚ) ^ ((a : ℤ) - b - 1) = (2 : ℚ) ^ a / 2 ^ (b + 1) := by
      rw [show (a : ℤ) - b - 1 = ((a : ℕ) : ℤ) - ((b + 1 : ℕ) : ℤ) by push_cast; ring,
        zpow_sub₀ (by norm_num), zpow_natCast, zpow_natCast]
    rw [this, hqeq, div_le_div_iff₀ (by positivity) hdq0]
    calc 2 ^ a * dq ≤ 2 ^ a * 2 ^ (b + 1) := by
          exact mul_le_mul_of_nonneg_left hb2q.le (by positivity)
      _ ≤ nq * 2 ^ (b + 1) := by
          exact mul_le_mul_of_nonneg_right ha1q (by positivity)
  split
  · rename_i h
    exact ⟨h, hsup⟩
  · rename_i h
    refine ⟨hinf, ?_⟩
    rw [show (a : ℤ) - b - 1 + 1 = (a : ℤ) - b by ring]
    exact lt_of_not_le h

theorem exponente_mono (a b : ℚ) (ha : 0 < a) (hab : a ≤ b) : exponente a ≤ exponente b := by
  have h1 := (exponente_cota a ha).1
  have h2 := (exponente_cota b (lt_of_lt_of_le ha hab)).2
  have h3 : (2 : ℚ) ^ exponente a < (2 : ℚ) ^ (exponente b + 1) :=
    lt_of_le_of_lt h1 (lt_of_le_of_lt hab h2)
  have := (zpow_lt_zpow_iff_right₀ (by norm_num : (1 : ℚ) < 2)).mp h3
  omega

theorem redondear_natCast (n : Nat) : redondear (n : ℚ) = n := by
  unfold redondear
  have h : (n : ℚ).floor = n := by
    show ⌊(n : ℚ)⌋ = n
    exact Int.floor_natCast n
  simp [h]

theorem redondear_cota (q : ℚ) :
    redondear q = q.floor.toNat ∨ redondear q = q.floor.toNat + 1 := by
  unfold redondear
  simp only []
  split_ifs <;> simp

theorem redondear_mono (a b : ℚ) (ha : 0 ≤ a) (hab : a ≤ b) : redondear a ≤ redondear b := by
  have hfa : (0 : ℤ) ≤ ⌊a⌋ := Int.floor_nonneg.mpr ha
  have hfb : (0 : ℤ) ≤ ⌊b⌋ := Int.floor_nonneg.mpr (le_trans ha hab)
  have hfab : ⌊a⌋ ≤ ⌊b⌋ := Int.floor_le_floor hab
  have hA : a.floor = ⌊a⌋ := rfl
  have hB : b.floor = ⌊b⌋ := rfl
  rcases lt_or_eq_of_le hfab with hlt | heq
  · have h1 := redondear_cota a
    have h2 := redondear_cota b
    rw [hA] at h1
    rw [hB] at h2
    omega
  · unfold redondear
    simp only [hA, hB, heq]
    split_ifs <;> first | omega | (exfalso; linarith)

theorem redondearQ_pos (q : ℚ) (hq : 0 < q) :
    redondearQ q
      = (redondear (q / (2 : ℚ) ^ (max (exponente q) (-1022) - 52)) : ℚ)
        * (2 : ℚ) ^ (max (exponente q) (-1022) - 52) := by
  unfold redondearQ
  simp [hq.ne', abs_of_pos hq, not_lt.mpr hq.le, dosALa_eq]

theorem redondearQ_cero : redondearQ 0 = 0 := by
  simp [redondearQ]

theorem redondearQ_nonneg (q : ℚ) (hq : 0 ≤ q) : 0 ≤ redondearQ q := by
  rcases hq.eq_or_lt with h | h
  · rw [← h, redondearQ_cero]
  · rw [redondearQ_pos q h]
    positivity

theorem potencia_rejilla (c : ℤ) (k : ℕ) :
    ((2 ^ k : ℕ) : ℚ) * (2 : ℚ) ^ (c - k) = (2 : ℚ) ^ c := by
  push_cast
  rw [← zpow_natCast, ← zpow_add₀ (by norm_num : (2 : ℚ) ≠ 0)]
  congr 1
  ring

theorem redondearQ_mono (a b : ℚ) (ha : 0 ≤ a) (hab : a ≤ b) :
    redondearQ a ≤ redondearQ b := by
  rcases ha.eq_or_lt with h0 | ha'
  · rw [← h0, redondearQ_cero]
    exact redondearQ_nonneg b (le_trans ha hab)
  have hb : 0 < b := lt_of_lt_of_le ha' hab
  rw [redondearQ_pos a ha', redondearQ_pos b hb]
  have hexp := exponente_mono a b ha' hab
  have hca0 : -1022 ≤ max (exponente a) (-1022) := le_max_right _ _
  have hca1 : exponente a ≤ max (exponente a) (-1022) := le_max_left _ _
  have hcb1 : max (exponente b) (-1022) = exponente b ∨ max (exponente b) (-1022) = -1022 :=
    max_choice _ _
  have hcab : max (exponente a) (-1022) ≤ max (exponente b) (-1022) :=
    max_le_max hexp (le_refl _)
  generalize max (exponente a) (-1022) = ca at *
  generalize max (exponente b) (-1022) = cb at *
  have hua : (0 : ℚ) < 2 ^ (ca - 52) := by positivity
  have hub : (0 : ℚ) < 2 ^ (cb - 52) := by positivity
  rcases hcab.eq_or_lt with heq | hlt
  · subst heq
    have hdiv : a / 2 ^ (ca - 52) ≤ b / 2 ^ (ca - 52) := div_le_div_of_nonneg_right hab hua.le
    have hm := redondear_mono _ _ (div_nonneg ha'.le hua.le) hdiv
    exact mul_le_mul_of_nonneg_right (by exact_mod_cast hm) hua.le
  · have h53 : ((2 ^ 53 : ℕ) : ℚ) * (2 : ℚ) ^ (ca - 52) = (2 : ℚ) ^ (ca + 1) := by
      have := potencia_rejilla (ca + 1) 53
      rw [← this]
      congr 2
      push_cast
      ring
    have h52 : ((2 ^ 52 : ℕ) : ℚ) * (2 : ℚ) ^ (cb - 52) = (2 : ℚ) ^ cb := by
      have := potencia_rejilla cb 52
      rw [← this]
      congr 2
    have h1 : a / 2 ^ (ca - 52) ≤ ((2 ^ 53 : ℕ) : ℚ) := by
      rw [div_le_iff₀ hua, h53]
      have h2 : a < (2 : ℚ) ^ (exponente a + 1) := (exponente_cota a ha').2
      have h3 : (2 : ℚ) ^ (exponente a + 1) ≤ 2 ^ (ca + 1) :=
        zpow_le_zpow_right₀ (by norm_num) (by omega)
      linarith
    have hma : redondear (a / 2 ^ (ca - 52)) ≤ 2 ^ 53 := by
      have := redondear_mono _ _ (div_nonneg ha'.le hua.le) h1
      rwa [redondear_natCast] at this
    have hA : (redondear (a / 2 ^ (ca - 52)) : ℚ) * 2 ^ (ca - 52) ≤ 2 ^ (ca + 1) := by
      rw [← h53]
      exact mul_le_mul_of_nonneg_right (by exact_mod_cast hma) hua.le
    have hcb : cb = exponente b := by omega
    have h4 : ((2 ^ 52 : ℕ) : ℚ) ≤ b / 2 ^ (cb - 52) := by
      rw [le_div_iff₀ hub, h52, hcb]
      exact (exponente_cota b hb).1
    have hmb : 2 ^ 52 ≤ redondear (b / 2 ^ (cb - 52)) := by
      have := redondear_mono _ _ (by positivity) h4
      rwa [redondear_natCast] at this
    have hB : (2 : ℚ) ^ cb ≤ (redondear (b / 2 ^ (cb - 52)) : ℚ) * 2 ^ (cb - 52) := by
      rw [← h52]
      exact mul_le_mul_of_nonneg_right (by exact_mod_cast hmb) hub.le
    have hC : (2 : ℚ) ^ (ca + 1) ≤ 2 ^ cb := zpow_le_zpow_right₀ (by norm_num) (by omega)
    linarith

theorem redondearQ_natCast (n : Nat) (hn : n < 2 ^ 53) : redondearQ (n : ℚ) = n := by
  rcases Nat.eq_zero_or_pos n with rfl | hpos
  · simp [redondearQ]
  have hq : (0 : ℚ) < n := by exact_mod_cast hpos
  obtain ⟨h1, h2⟩ := exponente_cota (n : ℚ) hq
  have he0 : 0 ≤ exponente (n : ℚ) := by
    have h3 : (2 : ℚ) ^ (0 : ℤ) < 2 ^ (exponente (n : ℚ) + 1) := by
      rw [zpow_zero]
      exact lt_of_le_of_lt (by exact_mod_cast hpos) h2
    have := (zpow_lt_zpow_iff_right₀ (by norm_num : (1 : ℚ) < 2)).mp h3
    omega
  have he52 : exponente (n : ℚ) ≤ 52 := by
    have h3 : (2 : ℚ) ^ exponente (n : ℚ) < 2 ^ (53 : ℤ) := by
      refine lt_of_le_of_lt h1 ?_
      have : ((n : ℕ) : ℚ) < ((2 ^ 53 : ℕ) : ℚ) := by exact_mod_cast hn
      rw [zpow_ofNat]
      push_cast at this
      exact this
    have := (zpow_lt_zpow_iff_right₀ (by norm_num : (1 : ℚ) < 2)).mp h3
    omega
  rw [redondearQ_pos _ hq, max_eq_left (by omega : (-1022 : ℤ) ≤ exponente (n : ℚ))]
  obtain ⟨k, hk⟩ : ∃ k : ℕ, exponente (n : ℚ) - 52 = -(k : ℤ) :=
    ⟨(52 - exponente (n : ℚ)).toNat, by omega⟩
  rw [hk, zpow_neg, zpow_natCast, div_inv_eq_mul]
  have hnat : (n : ℚ) * 2 ^ k = ((n * 2 ^ k : ℕ) : ℚ) := by push_cast; ring
  rw [hnat, redondear_natCast]
  push_cast
  field_simp

theorem truncar_no_negativo (q : ℚ) (hq : 0 ≤ q) : truncar q = ⌊q⌋ := by
  unfold truncar
  rw [Int.tdiv_eq_ediv (Rat.num_nonneg.mpr hq) (by exact_mod_cast Nat.zero_le _), Rat.floor_def]

/-- A non-negative rational below a natural number of at most 53 bits rounds to a finite
`float64`, within the same bounds. -/
theorem redondear64_finito (q : ℚ) (n : Nat) (hn : n < 2 ^ 53) (h0 : 0 ≤ q) (hq : q ≤ n) :
    redondear64 q = .finito (redondearQ q) ∧ 0 ≤ redondearQ q ∧ redondearQ q ≤ n := by
  have hr0 := redondearQ_nonneg q h0
  have hrn : redondearQ q ≤ n := by
    have := redondearQ_mono q n h0 hq
    rwa [redondearQ_natCast n hn] at this
  refine ⟨?_, hr0, hrn⟩
  unfold redondear64
  rw [if_neg]
  rw [abs_of_nonneg hr0, dosALa_eq, not_le]
  have h1 : (n : ℚ) < (2 : ℚ) ^ (53 : ℤ) := by
    rw [zpow_ofNat]
    have : ((n : ℕ) : ℚ) < ((2 ^ 53 : ℕ) : ℚ) := by exact_mod_cast hn
    push_cast at this
    exact this
  have h2 : (2 : ℚ) ^ (53 : ℤ) ≤ (2 : ℚ) ^ (1024 : ℤ) :=
    zpow_le_zpow_right₀ (by norm_num) (by norm_num)
  linarith

theorem Float64.ofNat_eq (n : Nat) : (OfNat.ofNat n : Float64) = .finito (n : ℚ) := rfl

/-- The fill level of a gauge at a finite value: the integer part of the rounded quotient
of the rounded product. -/
theorem llenadoBarra_finito (ancho : Int) (v : ℚ) (hw : 0 ≤ ancho - 2)
    (hw' : ancho - 2 < 2147483648) (hv0 : 0 ≤ v) (hv : v ≤ 1000000) :
    llenadoBarra ancho (.finito v)
      = ⌊redondearQ (redondearQ (((ancho - 2 : Int) : ℚ) * v) / 100)⌋ ∧
    0 ≤ redondearQ (redondearQ (((ancho - 2 : Int) : ℚ) * v) / 100) := by
  obtain ⟨w, hwn⟩ := Int.eq_ofNat_of_zero_le hw
  have hwlt : w < 2147483648 := by omega
  have hcast : ((ancho - 2 : Int) : ℚ) = (w : ℚ) := by rw [hwn]; norm_cast
  have hN : (2147483648000000 : ℕ) < 2 ^ 53 := by norm_num
  have hwq : (w : ℚ) ≤ 2147483648 := by exact_mod_cast hwlt.le
  have h1 : Float64.deInt (ancho - 2) = .finito (w : ℚ) := by
    unfold Float64.deInt
    rw [hcast]
    have := redondear64_finito (w : ℚ) w (by omega) (by positivity) (le_refl _)
    rw [this.1, redondearQ_natCast w (by omega)]
  have hprod0 : (0 : ℚ) ≤ (w : ℚ) * v := by positivity
  have hprod : (w : ℚ) * v ≤ ((2147483648000000 : ℕ) : ℚ) := by
    push_cast
    calc (w : ℚ) * v ≤ 2147483648 * 1000000 :=
          mul_le_mul hwq hv hv0 (by norm_num)
      _ = 2147483648000000 := by norm_num
  obtain ⟨h2, hP0, hPN⟩ := redondear64_finito _ _ hN hprod0 hprod
  have hquot0 : (0 : ℚ) ≤ redondearQ ((w : ℚ) * v) / 100 := by positivity
  have hquot : redondearQ ((w : ℚ) * v) / 100 ≤ ((2147483648000000 : ℕ) : ℚ) := by
    rw [div_le_iff₀ (by norm_num)]
    have : (0 : ℚ) ≤ ((2147483648000000 : ℕ) : ℚ) := by positivity
    linarith
  obtain ⟨h3, hQ0, hQN⟩ := redondear64_finito _ _ hN hquot0 hquot
  have hfloor0 : 0 ≤ ⌊redondearQ (redondearQ ((w : ℚ) * v) / 100)⌋ := Int.floor_nonneg.mpr hQ0
  have hfloorN : ⌊redondearQ (redondearQ ((w : ℚ) * v) / 100)⌋ ≤ 2147483648000000 := by
    have := Int.floor_le_floor hQN
    rwa [Int.floor_natCast] at this
  rw [hcast]
  refine ⟨?_, hQ0⟩
  unfold llenadoBarra
  rw [h1]
  show (Float64.div (Float64.mul (.finito (w : ℚ)) (.finito v))
    (.finito ((100 : ℕ) : ℚ))).aEntero = _
  simp only [Float64.mul, h2, Float64.div]
  rw [if_neg (by norm_num)]
  have h3' : redondear64 (redondearQ ((w : ℚ) * v) / ((100 : ℕ) : ℚ))
      = .finito (redondearQ (redondearQ ((w : ℚ) * v) / 100)) := by
    rw [show (((100 : ℕ) : ℚ)) = 100 by norm_num]
    exact h3
  rw [h3']
  simp only [Float64.aEntero]
  rw [truncar_no_negativo _ hQ0, if_pos]
  constructor <;> omega

/-! ## The gauge -/

theorem filtro_rango (w : Nat) (L : Int) :
    (List.range w).filter (fun (i : Nat) => decide ((i : Int) < L)) = List.range (min w L.toNat) := by
  induction w with
  | zero => simp
  | succ n ih =>
    rw [List.range_succ, List.filter_append, ih]
    by_cases h : (n : Int) < L
    · have h1 : min n L.toNat = n := by omega
      have h2 : min (n + 1) L.toNat = n + 1 := by omega
      rw [h1, h2, List.range_succ]
      simp [h]
    · have h1 : min (n + 1) L.toNat = min n L.toNat := by omega
      rw [h1]
      simp [h]

/-- The cells a gauge draws in a fill colour at a finite value: the first
`min w llenado` cells of the track, in the colour of the band of the value. -/
theorem dibujarBarra_relleno (x y ancho : Int) (titulo texto : GoString) (v : ℚ) :
    (dibujarBarra x y ancho titulo (.finito v) texto).filter esRelleno
      = (List.range (min (ancho - 2).toNat (llenadoBarra ancho (.finito v)).toNat)).map
          (fun (i : Nat) =>
            (⟨x + 1 + i, y + 1, ' ', .Background (colorDeBanda (bandFor v))⟩ : Celda)) := by
  have hcolor : (if (Float64.finito v).mayor 80 then Color.Red
      else if (Float64.finito v).mayor 50 then Color.Yellow else Color.Green)
      = colorDeBanda (bandFor v) := by
    simp only [Float64.ofNat_eq, Float64.mayor, decide_eq_true_eq, Nat.cast_ofNat]
    unfold bandFor
    split_ifs <;> rfl
  have hno : colorDeBanda (bandFor v) ≠ Color.DarkGray := by
    cases bandFor v <;> simp [colorDeBanda]
  unfold dibujarBarra
  generalize llenadoBarra ancho (.finito v) = L
  simp only [hcolor, List.filter_append, dibujarTexto_sin_relleno, List.nil_append,
    List.filter_map]
  have hb1 : List.filter esRelleno [(⟨x, y + 1, '[', Style.Default⟩ : Celda)] = [] := by
    simp [esRelleno]
  have hb2 : List.filter esRelleno [(⟨x + ancho - 1, y + 1, ']', Style.Default⟩ : Celda)] = [] := by
    simp [esRelleno]
  rw [hb1, hb2, List.nil_append, List.append_nil]
  have hfun : (esRelleno ∘ fun (i : Nat) => (⟨x + 1 + i, y + 1, ' ',
      if (i : Int) < L then Style.Background (colorDeBanda (bandFor v))
      else Style.Background Color.DarkGray⟩ : Celda))
      = fun (i : Nat) => decide ((i : Int) < L) := by
    funext i
    by_cases h : (i : Int) < L
    · simp only [Function.comp, h, if_true, decide_True]
      cases hb : colorDeBanda (bandFor v) <;> simp_all [esRelleno]
    · simp only [Function.comp, h, if_false, decide_False]
      rfl
  rw [hfun, filtro_rango]
  apply List.map_congr_left
  intro i hi
  have hi' : i < min (ancho - 2).toNat L.toNat := List.mem_range.mp hi
  have h : (i : Int) < L := by omega
  simp only [h, if_true]

theorem celdasLlenas_barra (x y ancho : Int) (titulo texto : GoString) (v : ℚ) :
    celdasLlenas (dibujarBarra x y ancho titulo (.finito v) texto)
      = min (ancho - 2).toNat (llenadoBarra ancho (.finito v)).toNat := by
  unfold celdasLlenas
  rw [dibujarBarra_relleno]
  simp

theorem estilos_relleno (x y ancho : Int) (titulo texto : GoString) (v : ℚ) :
    ((dibujarBarra x y ancho titulo (.finito v) texto).filter esRelleno).map (fun c => c.estilo)
      = List.replicate (celdasLlenas (dibujarBarra x y ancho titulo (.finito v) texto))
          (.Background (colorDeBanda (bandFor v))) := by
  rw [celdasLlenas_barra, dibujarBarra_relleno, List.map_map]
  apply List.ext_getElem
  · simp
  · intro i h1 h2
    simp

/-- What a completed `actualizarPantalla` has drawn, statement by statement. -/
theorem actualizarPantalla_campos (srt : Ordenador) (l : Lectura) (ancho alto : Int)
    (cuadro : Cuadro) (h : actualizarPantalla srt l ancho alto = .ok cuadro) :
    ∃ (m : VirtualMemoryStat) (u : ℚ) (us : List ℚ) (n : IOCountersStat)
      (ns : List IOCountersStat),
      l.memoria = some m ∧ l.cpuUso = u :: us ∧ l.netDatos = n :: ns ∧
      cuadro.memoria = dibujarBarra 1 1 (ancho - 2) (lit "Memoria") (usoMem m)
        (textoMemoria m (usoMem m)) ∧
      cuadro.cpu = dibujarBarra 1 4 (ancho - 2) (lit "CPU") (.finito u)
        (lit "Uso: " ++ fmtF 1 u ++ lit "%") ∧
      cuadro.red = dibujarTexto 1 7
        (lit "Red - Recibido: " ++ fmtF64 2 ((Float64.deNat n.BytesRecv).div 1000000)
          ++ lit "MB  Enviado: " ++ fmtF64 2 ((Float64.deNat n.BytesSent).div 1000000)
          ++ lit "MB")
        (.Foreground .Green) ∧
      cuadro.interfaces = dibujarTexto 1 9 (lit "Interfaces de Red:") (.Foreground .Yellow)
        ++ dibujarInterfaces 0 (obtenerInfoInterfacesRed l.interfaces l.netStats) ∧
      cuadro.uptime = dibujarTexto 1
        (11 + (if ((obtenerInfoInterfacesRed l.interfaces l.netStats).length : Int) < 3
          then ((obtenerInfoInterfacesRed l.interfaces l.netStats).length : Int) else 3))
        (obtenerUptime l.uptime) (.Foreground .Gray) ∧
      cuadro.tablaRAM = dibujarTabla 1 15 (Int.tdiv ancho 2 - 1)
        (alto - (11 + (if ((obtenerInfoInterfacesRed l.interfaces l.netStats).length : Int) < 3
          then ((obtenerInfoInterfacesRed l.interfaces l.netStats).length : Int) else 3) + 2) - 2)
        (lit "+ RAM") (ordenarPorRAM srt (obtenerProcesos l.procesos)) ∧
      cuadro.tablaCPU = dibujarTabla (Int.tdiv ancho 2 + 1) 15 (Int.tdiv ancho 2 - 2)
        (alto - (11 + (if ((obtenerInfoInterfacesRed l.interfaces l.netStats).length : Int) < 3
          then ((obtenerInfoInterfacesRed l.interfaces l.netStats).length : Int) else 3) + 2) - 2)
        (lit "+ CPU")
        (ordenarPorCPU srt (trasOrdenarPorRAM srt (obtenerProcesos l.procesos))) := by
  unfold actualizarPantalla at h
  cases hm : l.memoria with
  | none =>
    rw [hm] at h
    exact absurd h (by simp)
  | some m =>
    cases hu : l.cpuUso with
    | nil =>
      rw [hm, hu] at h
      exact absurd h (by simp)
    | cons u us =>
      cases hn : l.netDatos with
      | nil =>
        rw [hm, hu, hn] at h
        exact absurd h (by simp)
      | cons n ns =>
        rw [hm, hu, hn] at h
        simp only [Except.ok.injEq] at h
        subst h
        exact ⟨m, u, us, n, ns, rfl, rfl, rfl, rfl, rfl, rfl, rfl, rfl, rfl, rfl⟩

/-! ## The gauge: claims -/

/-- The rounded quotient by 100 of a rounded value stays on the same side of every
natural number as the exact quotient. -/
theorem cociente_redondeado (a : ℚ) (ha : 0 ≤ a) (k : Nat) (hk : 100 * k < 2 ^ 53) :
    ((k : ℚ) ≤ a / 100 → (k : ℚ) ≤ redondearQ (redondearQ a / 100)) ∧
    (a / 100 ≤ (k : ℚ) → redondearQ (redondearQ a / 100) ≤ (k : ℚ)) := by
  have hk' : k < 2 ^ 53 := by omega
  have hcien : redondearQ ((100 * k : ℕ) : ℚ) = ((100 * k : ℕ) : ℚ) := redondearQ_natCast _ hk
  have hP0 : 0 ≤ redondearQ a := redondearQ_nonneg a ha
  constructor
  · intro h
    have h1 : ((100 * k : ℕ) : ℚ) ≤ a := by
      rw [le_div_iff₀ (by norm_num)] at h
      push_cast
      linarith
    have h2 := redondearQ_mono _ _ (by positivity) h1
    rw [hcien] at h2
    have h3 : (k : ℚ) ≤ redondearQ a / 100 := by
      rw [le_div_iff₀ (by norm_num)]
      push_cast at h2
      linarith
    have h4 := redondearQ_mono _ _ (by positivity) h3
    rwa [redondearQ_natCast k hk'] at h4
  · intro h
    have h1 : a ≤ ((100 * k : ℕ) : ℚ) := by
      rw [div_le_iff₀ (by norm_num)] at h
      push_cast
      linarith
    have h2 := redondearQ_mono _ _ ha h1
    rw [hcien] at h2
    have h3 : redondearQ a / 100 ≤ (k : ℚ) := by
      rw [div_le_iff₀ (by norm_num)]
      push_cast at h2
      linarith
    have h4 := redondearQ_mono _ _ (by positivity) h3
    rwa [redondearQ_natCast k hk'] at h4

/-- A gauge is full at every value from 100 up to a million. -/
theorem barra_llena (x y ancho : Int) (titulo texto : GoString) (v : ℚ)
    (hw' : ancho - 2 < 2147483648) (hv : 100 ≤ v) (hv' : v ≤ 1000000) :
    celdasLlenas (dibujarBarra x y ancho titulo (.finito v) texto) = (ancho - 2).toNat := by
  rw [celdasLlenas_barra]
  rcases lt_or_le (ancho - 2) 0 with hneg | hw
  · have : (ancho - 2).toNat = 0 := by omega
    rw [this]
    exact Nat.zero_min _
  obtain ⟨hL, hQ0⟩ := llenadoBarra_finito ancho v hw hw' (by linarith) hv'
  obtain ⟨w, hwn⟩ := Int.eq_ofNat_of_zero_le hw
  have hcast : ((ancho - 2 : Int) : ℚ) = (w : ℚ) := by rw [hwn]; norm_cast
  rw [hL, hcast]
  rw [hcast] at hQ0
  have hwq : (0 : ℚ) ≤ (w : ℚ) := by positivity
  have hle : (w : ℚ) ≤ (w : ℚ) * v / 100 := by
    rw [le_div_iff₀ (by norm_num)]
    exact mul_le_mul_of_nonneg_left hv hwq
  have h1 := (cociente_redondeado ((w : ℚ) * v) (by positivity) w (by omega)).1 hle
  have h2 : (w : ℤ) ≤ ⌊redondearQ (redondearQ ((w : ℚ) * v) / 100)⌋ :=
    Int.le_floor.mpr (by exact_mod_cast h1)
  omega

/-- C6 as stated fails, since the fill level is computed in `float64`.  With 3e9 bytes
used out of 19e9 the memory value is the `float64` nearest to 15.789…, between 0 and 100;
on a terminal of 80 columns the track has 76 cells and the product `76 * v` rounds up to
1200, so 12 cells are filled where `⌊76 * v / 100⌋` is 11.  And at the value 1e20 the
conversion to `int` leaves the range of `int64`: no cell is filled, not the whole track. -/
theorem dibujarBarra_redondeo_contraejemplo :
    usoMem ⟨19000000000, 3000000000, 16000000000⟩
      = .finito (8888683475073347 / 562949953421312) ∧
    ((0 : ℚ) ≤ 8888683475073347 / 562949953421312 ∧
      (8888683475073347 / 562949953421312 : ℚ) ≤ 100) ∧
    celdasLlenas (dibujarBarra 1 1 78 (lit "Memoria")
      (.finito (8888683475073347 / 562949953421312)) []) = 12 ∧
    ⌊(((78 - 2 : Int) : ℚ)) * (8888683475073347 / 562949953421312) / 100⌋ = 11 ∧
    (∃ cuadro, actualizarPantalla insertionSortLessFunc
        { lecturaSana with memoria := some ⟨19000000000, 3000000000, 16000000000⟩ } 80 24
          = .ok cuadro ∧
      celdasLlenas cuadro.memoria = 12) ∧
    ((100 : ℚ) < 100000000000000000000 ∧
      celdasLlenas (dibujarBarra 0 0 12 [] (.finito 100000000000000000000) []) = 0) := by
  refine ⟨by decide!, ⟨by norm_num, by norm_num⟩, by decide!, ?_,
    ⟨_, rfl, by decide!⟩, by norm_num, by decide!⟩
  rw [Int.floor_eq_iff]
  norm_num

/-- C6, amended: on a track of `w = ancho - 2` cells, `0 ≤ w < 2^31`, the number of cells
`dibujarBarra` draws in the fill colour at a value `v` with `0 ≤ v ≤ 100` is the integer
part of the `float64` quotient `float64(w) * v / 100`; it is `⌊w * v / 100⌋` or one more,
and never more than `w`; it is 0 at `v = 0` and `w` at `v = 100`.  For `100 < v ≤ 1000000`
it is `w`, so at 150 the gauge is full, while the label handed over by
`actualizarPantalla` still reads `150.0%`. -/
theorem dibujarBarra_celdas_llenas (x y ancho : Int) (titulo texto : GoString)
    (hw : 0 ≤ ancho - 2) (hw' : ancho - 2 < 2147483648) :
    (∀ v : ℚ, 0 ≤ v → v ≤ 100 →
      (celdasLlenas (dibujarBarra x y ancho titulo (.finito v) texto) : Int)
        = ⌊redondearQ (redondearQ (((ancho - 2 : Int) : ℚ) * v) / 100)⌋ ∧
      ⌊((ancho - 2 : Int) : ℚ) * v / 100⌋
        ≤ (celdasLlenas (dibujarBarra x y ancho titulo (.finito v) texto) : Int) ∧
      (celdasLlenas (dibujarBarra x y ancho titulo (.finito v) texto) : Int)
        ≤ ⌊((ancho - 2 : Int) : ℚ) * v / 100⌋ + 1 ∧
      (celdasLlenas (dibujarBarra x y ancho titulo (.finito v) texto) : Int) ≤ ancho - 2) ∧
    celdasLlenas (dibujarBarra x y ancho titulo 0 texto) = 0 ∧
    (celdasLlenas (dibujarBarra x y ancho titulo 100 texto) : Int) = ancho - 2 ∧
    (∀ v : ℚ, 100 < v → v ≤ 1000000 →
      (celdasLlenas (dibujarBarra x y ancho titulo (.finito v) texto) : Int) = ancho - 2) ∧
    ∀ (srt : Ordenador) (l : Lectura) (resto : List ℚ) (pantalla alto : Int) (cuadro : Cuadro),
      actualizarPantalla srt { l with cpuUso := 150 :: resto } pantalla alto = .ok cuadro →
      cuadro.cpu = dibujarBarra 1 4 (pantalla - 2) (lit "CPU") 150 (lit "Uso: 150.0%") ∧
      (pantalla - 2 - 2 < 2147483648 → celdasLlenas cuadro.cpu = (pantalla - 2 - 2).toNat) := by
  obtain ⟨w, hwn⟩ := Int.eq_ofNat_of_zero_le hw
  have hcast : ((ancho - 2 : Int) : ℚ) = (w : ℚ) := by rw [hwn]; norm_cast
  have hwq : (0 : ℚ) ≤ (w : ℚ) := by positivity
  have rango : ∀ v : ℚ, 0 ≤ v → v ≤ 100 →
      (celdasLlenas (dibujarBarra x y ancho titulo (.finito v) texto) : Int)
        = ⌊redondearQ (redondearQ (((ancho - 2 : Int) : ℚ) * v) / 100)⌋ ∧
      ⌊((ancho - 2 : Int) : ℚ) * v / 100⌋
        ≤ (celdasLlenas (dibujarBarra x y ancho titulo (.finito v) texto) : Int) ∧
      (celdasLlenas (dibujarBarra x y ancho titulo (.finito v) texto) : Int)
        ≤ ⌊((ancho - 2 : Int) : ℚ) * v / 100⌋ + 1 ∧
      (celdasLlenas (dibujarBarra x y ancho titulo (.finito v) texto) : Int) ≤ ancho - 2 := by
    intro v h0 h100
    obtain ⟨hL, hQ0⟩ := llenadoBarra_finito ancho v hw hw' h0 (by linarith)
    rw [celdasLlenas_barra, hL]
    rw [hcast] at hQ0 ⊢
    have ha0 : (0 : ℚ) ≤ (w : ℚ) * v := by positivity
    have hq0 : (0 : ℚ) ≤ (w : ℚ) * v / 100 := by positivity
    have hqw : (w : ℚ) * v / 100 ≤ (w : ℚ) := by
      rw [div_le_iff₀ (by norm_num)]
      exact mul_le_mul_of_nonneg_left h100 hwq
    have hf0 : 0 ≤ ⌊(w : ℚ) * v / 100⌋ := Int.floor_nonneg.mpr hq0
    have hfw : ⌊(w : ℚ) * v / 100⌋ ≤ (w : ℤ) := by
      have := Int.floor_le_floor hqw
      rwa [Int.floor_natCast] at this
    obtain ⟨k, hk⟩ := Int.eq_ofNat_of_zero_le hf0
    have hkw : k ≤ w := by omega
    have hk1 : (k : ℚ) ≤ (w : ℚ) * v / 100 := by
      have := Int.floor_le ((w : ℚ) * v / 100)
      rw [hk] at this
      exact_mod_cast this
    have hk2 : (w : ℚ) * v / 100 ≤ ((k + 1 : ℕ) : ℚ) := by
      have := (Int.lt_floor_add_one ((w : ℚ) * v / 100)).le
      rw [hk] at this
      push_cast
      exact_mod_cast this
    have hQk := (cociente_redondeado _ ha0 k (by omega)).1 hk1
    have hQk1 := (cociente_redondeado _ ha0 (k + 1) (by omega)).2 hk2
    have hQw := (cociente_redondeado _ ha0 w (by omega)).2 hqw
    have e1 : (k : ℤ) ≤ ⌊redondearQ (redondearQ ((w : ℚ) * v) / 100)⌋ :=
      Int.le_floor.mpr (by exact_mod_cast hQk)
    have e2 : ⌊redondearQ (redondearQ ((w : ℚ) * v) / 100)⌋ ≤ ((k + 1 : ℕ) : ℤ) := by
      have := Int.floor_le_floor hQk1
      rwa [Int.floor_natCast] at this
    have e3 : ⌊redondearQ (redondearQ ((w : ℚ) * v) / 100)⌋ ≤ (w : ℤ) := by
      have := Int.floor_le_floor hQw
      rwa [Int.floor_natCast] at this
    push_cast at e2
    omega
  have cero : celdasLlenas (dibujarBarra x y ancho titulo 0 texto) = 0 := by
    show celdasLlenas (dibujarBarra x y ancho titulo (.finito ((0 : ℕ) : ℚ)) texto) = 0
    have h := (rango ((0 : ℕ) : ℚ) (by norm_num) (by norm_num)).1
    rw [hcast] at h
    simp only [Nat.cast_zero, mul_zero, redondearQ_cero, zero_div, Int.floor_zero] at h
    simp only [Nat.cast_zero]
    exact_mod_cast h
  have cien : (celdasLlenas (dibujarBarra x y ancho titulo 100 texto) : Int) = ancho - 2 := by
    show (celdasLlenas (dibujarBarra x y ancho titulo (.finito ((100 : ℕ) : ℚ)) texto) : Int)
      = ancho - 2
    rw [barra_llena x y ancho titulo texto _ hw' (by norm_num) (by norm_num)]
    omega
  refine ⟨rango, cero, cien, ?_, ?_⟩
  · intro v hv hv'
    rw [barra_llena x y ancho titulo texto v hw' hv.le hv']
    omega
  · intro srt l resto pantalla alto cuadro h
    obtain ⟨m, u, us, n, ns, -, hu, -, -, hcpu, -⟩ := actualizarPantalla_campos _ _ _ _ _ h
    simp only [List.cons.injEq] at hu
    obtain ⟨rfl, -⟩ := hu
    have hlabel : lit "Uso: " ++ fmtF 1 150 ++ lit "%" = lit "Uso: 150.0%" := by decide!
    have hval : (150 : Float64) = .finito 150 := by
      rw [Float64.ofNat_eq]
      norm_num
    rw [hcpu, hlabel, hval]
    refine ⟨rfl, fun hp => ?_⟩
    exact barra_llena 1 4 (pantalla - 2) (lit "CPU") (lit "Uso: 150.0%") 150 hp
      (by norm_num) (by norm_num)

/-- C6 amended, at an instance: a gauge of twelve columns, hence a track of ten cells. -/
theorem dibujarBarra_celdas_llenas_witness :
    ((0 : Int) ≤ 12 - 2 ∧ (12 : Int) - 2 < 2147483648) ∧
    celdasLlenas (dibujarBarra 1 4 12 (lit "CPU") 0 (lit "Uso: 0.0%")) = 0 ∧
    (celdasLlenas (dibujarBarra 1 4 12 (lit "CPU") 100 (lit "Uso: 100.0%")) : Int) = 12 - 2 ∧
    (celdasLlenas (dibujarBarra 1 4 12 (lit "CPU") (.finito 150) (lit "Uso: 150.0%")) : Int)
      = 12 - 2 :=
  ⟨⟨by decide, by decide⟩,
    (dibujarBarra_celdas_llenas 1 4 12 (lit "CPU") (lit "Uso: 0.0%") (by decide)
      (by decide)).2.1,
    (dibujarBarra_celdas_llenas 1 4 12 (lit "CPU") (lit "Uso: 100.0%") (by decide)
      (by decide)).2.2.1,
    (dibujarBarra_celdas_llenas 1 4 12 (lit "CPU") (lit "Uso: 150.0%") (by decide)
      (by decide)).2.2.2.1 150 (by norm_num) (by norm_num)⟩

/-- When the three sources read before the first gauge answer, `actualizarPantalla`
completes. -/
theorem actualizarPantalla_completa (srt : Ordenador) (l : Lectura) (m : VirtualMemoryStat)
    (u : ℚ) (us : List ℚ) (n : IOCountersStat) (ns : List IOCountersStat) (ancho alto : Int) :
    ∃ cuadro, actualizarPantalla srt
      { l with memoria := some m, cpuUso := u :: us, netDatos := n :: ns } ancho alto
        = .ok cuadro :=
  ⟨_, rfl⟩


/-- C7: the cells a gauge fills are the first cells of its track, as many as the fill
level allows, each drawn in the colour of the band of the value: red above 80, yellow
above 50 and up to 80, green otherwise; on a track of ten cells a value of 90 gives nine
red cells, 60 six yellow cells and 30 three green cells.  With 16e9 bytes of memory of
which 8e9 are used and a CPU reading of 45, the memory gauge is drawn for the value 50 and
the CPU gauge for the value 45, with labels reading `50.0%` and `45.0%`, both in the
nominal band: on a terminal of 80 columns they fill 38 and 34 cells, all green. -/
theorem dibujarBarra_color_de_banda (x y ancho : Int) (titulo texto : GoString) (v : ℚ)
    (srt : Ordenador) (l : Lectura) (libre : Nat) (resto : List ℚ) (n : IOCountersStat)
    (ns : List IOCountersStat) (pantalla alto : Int) :
    (dibujarBarra x y ancho titulo (.finito v) texto).filter esRelleno
      = (List.range (min (ancho - 2).toNat (llenadoBarra ancho (.finito v)).toNat)).map
          (fun (i : Nat) =>
            (⟨x + 1 + i, y + 1, ' ', .Background (colorDeBanda (bandFor v))⟩ : Celda)) ∧
    ((dibujarBarra 0 0 12 [] 90 []).filter esRelleno
        = (List.range 9).map (fun (i : Nat) => (⟨1 + i, 1, ' ', .Background .Red⟩ : Celda)) ∧
      (dibujarBarra 0 0 12 [] 60 []).filter esRelleno
        = (List.range 6).map (fun (i : Nat) => (⟨1 + i, 1, ' ', .Background .Yellow⟩ : Celda)) ∧
      (dibujarBarra 0 0 12 [] 30 []).filter esRelleno
        = (List.range 3).map (fun (i : Nat) => (⟨1 + i, 1, ' ', .Background .Green⟩ : Celda))) ∧
    ∃ cuadro, actualizarPantalla srt
        { l with memoria := some ⟨16000000000, 8000000000, libre⟩, cpuUso := 45 :: resto,
                 netDatos := n :: ns } pantalla alto = .ok cuadro ∧
      cuadro.memoria = dibujarBarra 1 1 (pantalla - 2) (lit "Memoria") 50
        (lit "Total: 16.0GB Usada: 8.0GB Libre: "
          ++ fmtF64 1 ((Float64.deNat libre).div 1000000000) ++ lit "GB (50.0%)") ∧
      cuadro.cpu = dibujarBarra 1 4 (pantalla - 2) (lit "CPU") 45 (lit "Uso: 45.0%") ∧
      bandFor 50 = .nominal ∧ bandFor 45 = .nominal ∧ colorDeBanda .nominal = .Green ∧
      (pantalla = 80 →
        cuadro.memoria.filter esRelleno
          = (List.range 38).map
              (fun (i : Nat) => (⟨2 + i, 2, ' ', .Background .Green⟩ : Celda)) ∧
        cuadro.cpu.filter esRelleno
          = (List.range 34).map
              (fun (i : Nat) => (⟨2 + i, 5, ' ', .Background .Green⟩ : Celda))) := by
  refine ⟨dibujarBarra_relleno x y ancho titulo texto v, ⟨by decide!, by decide!, by decide!⟩, ?_⟩
  obtain ⟨cuadro, h⟩ := actualizarPantalla_completa srt l ⟨16000000000, 8000000000, libre⟩ 45
    resto n ns pantalla alto
  obtain ⟨m, u, us, n', ns', hm, hu, -, hmem, hcpu, -⟩ := actualizarPantalla_campos _ _ _ _ _ h
  simp only [Option.some.injEq] at hm
  simp only [List.cons.injEq] at hu
  obtain ⟨rfl, -⟩ := hu
  subst hm
  have huso : usoMem ⟨16000000000, 8000000000, libre⟩ = .finito 50 := by
    show ((Float64.deNat 8000000000).div (Float64.deNat 16000000000)).mul 100 = .finito 50
    decide!
  have e50 : (50 : Float64) = .finito 50 := by rw [Float64.ofNat_eq]; norm_num
  have e45 : (45 : Float64) = .finito 45 := by rw [Float64.ofNat_eq]; norm_num
  have h16 : fmtF64 1 ((Float64.deNat 16000000000).div 1000000000) = lit "16.0" := by decide!
  have h8 : fmtF64 1 ((Float64.deNat 8000000000).div 1000000000) = lit "8.0" := by decide!
  have h50 : fmtF64 1 (.finito 50) = lit "50.0" := by decide!
  have h45 : lit "Uso: " ++ fmtF 1 45 ++ lit "%" = lit "Uso: 45.0%" := by decide!
  have hb50 : bandFor 50 = .nominal := by decide!
  have hb45 : bandFor 45 = .nominal := by decide!
  have hA : lit "Total: " ++ lit "16.0" ++ lit "GB Usada: " ++ lit "8.0" ++ lit "GB Libre: "
      = lit "Total: 16.0GB Usada: 8.0GB Libre: " := by decide
  have hB : lit "GB (50.0%)" = lit "GB (" ++ lit "50.0" ++ lit "%)" := by decide
  have htexto : textoMemoria ⟨16000000000, 8000000000, libre⟩ (.finito 50)
      = lit "Total: 16.0GB Usada: 8.0GB Libre: "
          ++ fmtF64 1 ((Float64.deNat libre).div 1000000000) ++ lit "GB (50.0%)" := by
    simp only [textoMemoria, h16, h8, h50]
    rw [hA, hB]
    simp only [List.append_assoc]
  rw [huso, htexto] at hmem
  rw [h45] at hcpu
  refine ⟨cuadro, h, ?_, ?_, hb50, hb45, rfl, ?_⟩
  · rw [hmem, e50]
  · rw [hcpu, e45]
  · intro hp
    subst hp
    have hn50 : min ((80 : Int) - 2 - 2).toNat (llenadoBarra (80 - 2) (.finito 50)).toNat = 38 := by
      decide!
    have hn45 : min ((80 : Int) - 2 - 2).toNat (llenadoBarra (80 - 2) (.finito 45)).toNat = 34 := by
      decide!
    rw [hmem, hcpu, dibujarBarra_relleno, dibujarBarra_relleno, hn50, hn45, hb50, hb45]
    constructor
    · apply List.map_congr_left
      intro i _
      simp only [colorDeBanda]
      congr 1
    · apply List.map_congr_left
      intro i _
      simp only [colorDeBanda]
      congr 1

/-- C7, at an instance: the scenario on a terminal of 80 columns and 24 rows. -/
theorem dibujarBarra_color_de_banda_witness :
    ∃ cuadro, actualizarPantalla insertionSortLessFunc
        { lecturaSana with memoria := some ⟨16000000000, 8000000000, 8000000000⟩,
                           cpuUso := 45 :: [],
                           netDatos := ⟨lit "all", 2000000, 1000000, 20, 10⟩ :: [] } 80 24
          = .ok cuadro ∧
      cuadro.memoria.filter esRelleno
        = (List.range 38).map (fun (i : Nat) => (⟨2 + i, 2, ' ', .Background .Green⟩ : Celda)) ∧
      cuadro.cpu.filter esRelleno
        = (List.range 34).map (fun (i : Nat) => (⟨2 + i, 5, ' ', .Background .Green⟩ : Celda)) :=
  match (dibujarBarra_color_de_banda 0 0 12 [] [] 90 insertionSortLessFunc lecturaSana
    8000000000 [] ⟨lit "all", 2000000, 1000000, 20, 10⟩ [] 80 24).2.2 with
  | ⟨cuadro, h, _, _, _, _, _, h80⟩ => ⟨cuadro, h, h80 rfl⟩

/-- C8 as stated fails at the value 50: the gauge fills its cell in green, the nominal
colour, and a table row whose CPU and RAM are 50 is green as well; the band of 50 is
nominal, not warning. -/
theorem banda_cincuenta_contraejemplo :
    (⟨1, 1, ' ', .Background .Green⟩ : Celda) ∈ dibujarBarra 0 0 4 [] 50 [] ∧
    ((dibujarBarra 0 0 4 [] 50 []).filter esRelleno).map (fun c => c.estilo)
      = [.Background .Green] ∧
    estiloFila ⟨1, [], 50, 50, 0⟩ = .Foreground .Green ∧
    colorDeBanda .warning = .Yellow ∧
    bandFor 50 ≠ .warning := by
  decide!

/-- C8, amended: at the boundary values the fill colour is red (alert) at 81, yellow
(warning) at 80, green (nominal) at 50 and green (nominal) at 49, for the gauge and for a
table row alike; on a track of ten cells these are 8, 8, 5 and 4 cells. -/
theorem bandas_en_los_limites (x y ancho : Int) (titulo texto : GoString) (pid : Int)
    (nombre : GoString) (rss : Nat) :
    (((dibujarBarra x y ancho titulo 81 texto).filter esRelleno).map (fun c => c.estilo)
      = List.replicate (celdasLlenas (dibujarBarra x y ancho titulo 81 texto))
          (.Background .Red) ∧
    ((dibujarBarra x y ancho titulo 80 texto).filter esRelleno).map (fun c => c.estilo)
      = List.replicate (celdasLlenas (dibujarBarra x y ancho titulo 80 texto))
          (.Background .Yellow) ∧
    ((dibujarBarra x y ancho titulo 50 texto).filter esRelleno).map (fun c => c.estilo)
      = List.replicate (celdasLlenas (dibujarBarra x y ancho titulo 50 texto))
          (.Background .Green) ∧
    ((dibujarBarra x y ancho titulo 49 texto).filter esRelleno).map (fun c => c.estilo)
      = List.replicate (celdasLlenas (dibujarBarra x y ancho titulo 49 texto))
          (.Background .Green)) ∧
    (celdasLlenas (dibujarBarra 0 0 12 [] 81 []) = 8 ∧
      celdasLlenas (dibujarBarra 0 0 12 [] 80 []) = 8 ∧
      celdasLlenas (dibujarBarra 0 0 12 [] 50 []) = 5 ∧
      celdasLlenas (dibujarBarra 0 0 12 [] 49 []) = 4) ∧
    (estiloFila ⟨pid, nombre, 81, 0, rss⟩ = .Foreground .Red ∧
      estiloFila ⟨pid, nombre, 80, 0, rss⟩ = .Foreground .Yellow ∧
      estiloFila ⟨pid, nombre, 50, 0, rss⟩ = .Foreground .Green ∧
      estiloFila ⟨pid, nombre, 49, 0, rss⟩ = .Foreground .Green) := by
  have h81 : colorDeBanda (bandFor 81) = .Red := by decide!
  have h80 : colorDeBanda (bandFor 80) = .Yellow := by decide!
  have h50 : colorDeBanda (bandFor 50) = .Green := by decide!
  have h49 : colorDeBanda (bandFor 49) = .Green := by decide!
  have e81 : (81 : Float64) = .finito 81 := by rw [Float64.ofNat_eq]; norm_num
  have e80 : (80 : Float64) = .finito 80 := by rw [Float64.ofNat_eq]; norm_num
  have e50 : (50 : Float64) = .finito 50 := by rw [Float64.ofNat_eq]; norm_num
  have e49 : (49 : Float64) = .finito 49 := by rw [Float64.ofNat_eq]; norm_num
  refine ⟨⟨?_, ?_, ?_, ?_⟩, by decide!, ?_, ?_, ?_, ?_⟩
  · rw [e81, estilos_relleno, h81]
  · rw [e80, estilos_relleno, h80]
  · rw [e50, estilos_relleno, h50]
  · rw [e49, estilos_relleno, h49]
  · simp only [estiloFila]; norm_num
  · simp only [estiloFila]; norm_num
  · simp only [estiloFila]; norm_num
  · simp only [estiloFila]; norm_num


/-! ## The table and the interface list -/

/-- At the width the table uses, `cortar` returns: the name column is what it returns. -/
theorem cortar_nombreFila (p : Proceso) : cortar p.Nombre 20 = .ok (nombreFila p) := by
  unfold nombreFila cortar
  split
  · rfl
  · rfl

theorem dibujarFilas_eq (x y alto : Int) (lista : List Proceso) (i : Nat) :
    dibujarFilas x y alto i lista
      = ((lista.take (alto - 3 - i).toNat).enumFrom i).flatMap
          (fun ip => dibujarTexto x (y + 2 + ip.1) (textoFila ip.2) (estiloFila ip.2)) := by
  induction lista generalizing i with
  | nil => simp [dibujarFilas]
  | cons p resto ih =>
    unfold dibujarFilas
    split
    · rename_i h
      have h0 : (alto - 3 - i).toNat = 0 := by omega
      rw [h0]
      simp
    · rename_i h
      have hk : (alto - 3 - i).toNat = (alto - 3 - ((i + 1 : Nat) : Int)).toNat + 1 := by
        push_cast
        omega
      rw [hk, List.take_succ_cons, List.enumFrom_cons, List.flatMap_cons, ih (i + 1)]

theorem dibujarInterfaces_eq (infos : List GoString) (i : Nat) :
    dibujarInterfaces i infos
      = ((infos.take (4 - i)).enumFrom i).flatMap
          (fun ip => dibujarTexto 1 (10 + ip.1) ip.2 (.Foreground .Blue)) := by
  induction infos generalizing i with
  | nil => simp [dibujarInterfaces]
  | cons info resto ih =>
    unfold dibujarInterfaces
    split
    · rename_i h
      have h0 : 4 - i = 0 := by omega
      rw [h0]
      simp
    · rename_i h
      have hk : 4 - i = (4 - (i + 1)) + 1 := by omega
      rw [hk, List.take_succ_cons, List.enumFrom_cons, List.flatMap_cons, ih (i + 1)]

/-- C10: for every list and every available height, negative ones included, `dibujarTabla`
returns; it draws its two header lines and then the first `k` records of the list in
order, record `i` on line `y + 2 + i`, where `k = min (len lista) (max 0 (alto - 3))`, so
`k` is at most the length of the list and at most the height left under the header; the
other records are not drawn. -/
theorem dibujarTabla_primeras_filas (x y ancho alto : Int) (titulo : GoString)
    (lista : List Proceso) :
    dibujarTabla x y ancho alto titulo lista
      = dibujarTexto x y titulo (.Foreground .Yellow)
        ++ dibujarTexto x (y + 1) (lit "PID   Nombre                CPU%     RAM%")
            (.Foreground .Green)
        ++ ((lista.take (alto - 3).toNat).enum).flatMap
            (fun ip => dibujarTexto x (y + 2 + ip.1) (textoFila ip.2) (estiloFila ip.2)) ∧
    (lista.take (alto - 3).toNat).length = min lista.length (alto - 3).toNat ∧
    (lista.take (alto - 3).toNat).length ≤ lista.length ∧
    ((lista.take (alto - 3).toNat).length : Int) ≤ max 0 (alto - 3) ∧
    ((lista.take (alto - 3).toNat).length : Int) ≤ max 0 (alto - 2) := by
  have hlen : (lista.take (alto - 3).toNat).length = min lista.length (alto - 3).toNat := by
    rw [List.length_take, Nat.min_comm]
  refine ⟨?_, hlen, ?_, ?_, ?_⟩
  · unfold dibujarTabla
    rw [dibujarFilas_eq]
    simp [List.enum]
  · rw [hlen]; omega
  · rw [hlen]; omega
  · rw [hlen]; omega

/-- C9 at the failing input: with four interfaces discovered, `actualizarPantalla` draws
four entries, on rows 10 to 13, the fourth being the entry of `wlan0`; and on any list of
at least four entries the loop draws the first four. -/
theorem actualizarPantalla_cuatro_interfaces :
    (∃ cuadro, actualizarPantalla insertionSortLessFunc
        { lecturaSana with interfaces := cuatroInterfaces, netStats := cuatroContadores } 80 24
          = .ok cuadro ∧
      (obtenerInfoInterfacesRed cuatroInterfaces cuatroContadores).length = 4 ∧
      (cuadro.interfaces.map (fun c => c.y)).dedup = [9, 10, 11, 12, 13] ∧
      cuadro.interfaces.filter (fun c => c.y = 13)
        = dibujarTexto 1 13 (infoInterfaz ⟨lit "wlan0", []⟩ ⟨lit "wlan0", 4, 4, 4, 4⟩)
            (.Foreground .Blue)) ∧
    ∀ (a b c d : GoString) (resto : List GoString),
      dibujarInterfaces 0 (a :: b :: c :: d :: resto)
        = dibujarTexto 1 10 a (.Foreground .Blue) ++ dibujarTexto 1 11 b (.Foreground .Blue)
          ++ dibujarTexto 1 12 c (.Foreground .Blue) ++ dibujarTexto 1 13 d (.Foreground .Blue) := by
  refine ⟨⟨_, rfl, by decide!, by decide!, by decide!⟩, ?_⟩
  intro a b c d resto
  rw [dibujarInterfaces_eq]
  simp [List.enumFrom]

/-- C4 at the failing inputs: `actualizarPantalla` panics when the memory query leaves a nil
pointer, when the CPU list is empty and when the aggregate network counters are empty, in
the last case although memory and CPU answered.  Failed uptime, interface and process
sources are absorbed: the call completes and the uptime line reads `No disponible`. -/
theorem actualizarPantalla_fuente_fallida (srt : Ordenador) (l : Lectura)
    (m : VirtualMemoryStat) (u : ℚ) (us : List ℚ) (n : IOCountersStat)
    (ns : List IOCountersStat) (ancho alto : Int) :
    actualizarPantalla srt { l with memoria := none } ancho alto = .error .nilDereference ∧
    actualizarPantalla srt { l with memoria := some m, cpuUso := [] } ancho alto
      = .error .indexOutOfRange ∧
    actualizarPantalla srt { l with memoria := some m, cpuUso := u :: us, netDatos := [] }
      ancho alto = .error .indexOutOfRange ∧
    ∃ cuadro, actualizarPantalla srt
        { memoria := some m, cpuUso := u :: us, netDatos := n :: ns, interfaces := [],
          netStats := l.netStats, uptime := none, procesos := [] } ancho alto = .ok cuadro ∧
      cuadro.uptime = dibujarTexto 1 11 (lit "Tiempo activo: No disponible")
        (.Foreground .Gray) ∧
      cuadro.interfaces
        = dibujarTexto 1 9 (lit "Interfaces de Red:") (.Foreground .Yellow) ∧
      cuadro.memoria = dibujarBarra 1 1 (ancho - 2) (lit "Memoria") (usoMem m)
        (textoMemoria m (usoMem m)) := by
  refine ⟨rfl, rfl, rfl, ?_⟩
  obtain ⟨cuadro, h⟩ : ∃ cuadro, actualizarPantalla srt
      { memoria := some m, cpuUso := u :: us, netDatos := n :: ns, interfaces := [],
        netStats := l.netStats, uptime := none, procesos := [] } ancho alto = .ok cuadro :=
    ⟨_, rfl⟩
  obtain ⟨m', u', us', n', ns', hm, -, -, hmem, -, -, hint, hup, -, -⟩ :=
    actualizarPantalla_campos _ _ _ _ _ h
  simp only [Option.some.injEq] at hm
  subst hm
  refine ⟨cuadro, h, ?_, ?_, hmem⟩
  · rw [hup]
    simp [obtenerInfoInterfacesRed, obtenerUptime]
  · rw [hint]
    simp [obtenerInfoInterfacesRed, dibujarInterfaces]

/-! ## The layout -/

theorem dibujarBarra_filas (x y ancho : Int) (titulo texto : GoString) (v : Float64)
    (c : Celda)
    (hc : c ∈ dibujarBarra x y ancho titulo v texto) : c.y = y ∨ c.y = y + 1 := by
  unfold dibujarBarra at hc
  simp only [List.mem_append, List.mem_singleton, List.mem_map] at hc
  rcases hc with ((hc | hc) | hc) | hc
  · exact Or.inl (dibujarTexto_celda _ _ _ _ c hc).1
  · right; rw [hc]
  · obtain ⟨i, -, rfl⟩ := hc
    right; rfl
  · right; rw [hc]

theorem dibujarInterfaces_filas (infos : List GoString) (i : Nat) (c : Celda)
    (hc : c ∈ dibujarInterfaces i infos) :
    10 + (i : Int) ≤ c.y ∧ c.y ≤ 13 ∧ c.y < 10 + (i : Int) + infos.length := by
  induction infos generalizing i with
  | nil => simp [dibujarInterfaces] at hc
  | cons info resto ih =>
    unfold dibujarInterfaces at hc
    split at hc
    · simp at hc
    · rename_i h
      rcases List.mem_append.mp hc with hc | hc
      · have hy := (dibujarTexto_celda _ _ _ _ c hc).1
        simp only [List.length_cons]
        push_cast
        omega
      · obtain ⟨h1, h2, h3⟩ := ih (i + 1) hc
        simp only [List.length_cons]
        push_cast at h1 h3 ⊢
        omega

theorem dibujarFilas_filas (x y alto : Int) (lista : List Proceso) (i : Nat) (c : Celda)
    (hc : c ∈ dibujarFilas x y alto i lista) :
    y + 2 + (i : Int) ≤ c.y ∧ c.y < y + alto - 1 := by
  induction lista generalizing i with
  | nil => simp [dibujarFilas] at hc
  | cons p resto ih =>
    unfold dibujarFilas at hc
    split at hc
    · simp at hc
    · rename_i h
      rcases List.mem_append.mp hc with hc | hc
      · have hy := (dibujarTexto_celda _ _ _ _ c hc).1
        omega
      · obtain ⟨h1, h2⟩ := ih (i + 1) hc
        push_cast at h1
        omega

theorem dibujarTabla_filas (x y ancho alto : Int) (titulo : GoString) (lista : List Proceso)
    (c : Celda) (hc : c ∈ dibujarTabla x y ancho alto titulo lista) :
    y ≤ c.y ∧ (y + 2 ≤ c.y → c.y < y + alto - 1) := by
  unfold dibujarTabla at hc
  simp only [List.mem_append] at hc
  rcases hc with (hc | hc) | hc
  · have hy := (dibujarTexto_celda _ _ _ _ c hc).1
    omega
  · have hy := (dibujarTexto_celda _ _ _ _ c hc).1
    omega
  · obtain ⟨h1, h2⟩ := dibujarFilas_filas _ _ _ _ _ c hc
    omega

/-- Groups of calls that live on different rows touch no common cell. -/
theorem disjuntas_por_filas (a b : List Celda) (F G : Int → Prop)
    (ha : ∀ c ∈ a, F c.y) (hb : ∀ d ∈ b, G d.y) (hFG : ∀ r, F r → G r → False) :
    Disjuntas a b := by
  intro c hc d hd hxy
  exact hFG c.y (ha c hc) (hxy.2 ▸ hb d hd)

/-- C5 as stated fails.  On a terminal of 80 columns and 24 rows the two tables both write
the cell (41, 16): the column header of the RAM table ends there and the one of the CPU
table starts there.  And on a terminal of 20 columns and 10 rows the program issues calls
beyond both bounds, the title of the RAM table on row 15 and the memory label at column 20:
nothing in the program clips a call to the viewport. -/
theorem actualizarPantalla_solape_contraejemplo :
    (∃ cuadro, actualizarPantalla insertionSortLessFunc lecturaSana 80 24 = .ok cuadro ∧
      (⟨41, 16, '%', .Foreground .Green⟩ : Celda) ∈ cuadro.tablaRAM ∧
      (⟨41, 16, 'P', .Foreground .Green⟩ : Celda) ∈ cuadro.tablaCPU ∧
      ¬ Disjuntas cuadro.tablaRAM cuadro.tablaCPU) ∧
    (∃ cuadro, actualizarPantalla insertionSortLessFunc lecturaSana 20 10 = .ok cuadro ∧
      (∃ c ∈ cuadro.tablaRAM, ¬ c.y < 10) ∧ (∃ c ∈ cuadro.memoria, ¬ c.x < 20)) := by
  refine ⟨⟨_, rfl, by decide, by decide, ?_⟩, ⟨_, rfl,
    ⟨⟨1, 15, '+', .Foreground .Yellow⟩, by decide, by decide⟩,
    ⟨⟨20, 1, '0', .Foreground .Yellow⟩, by decide!, by decide⟩⟩⟩
  intro h
  exact h ⟨41, 16, '%', .Foreground .Green⟩ (by decide) ⟨41, 16, 'P', .Foreground .Green⟩
    (by decide) ⟨rfl, rfl⟩

/-- C5, amended: whenever `actualizarPantalla` completes, the memory gauge, the CPU gauge,
the network line, the interface list, the uptime line and the pair of tables write pairwise
disjoint sets of cells, each on rows of its own; every cell of the tables is on row 15 or
below, and every process row of a table, from row 17 on, is above the last row of the
terminal, so a small height shows fewer rows. -/
theorem actualizarPantalla_filas_disjuntas (srt : Ordenador) (l : Lectura) (ancho alto : Int)
    (cuadro : Cuadro) (h : actualizarPantalla srt l ancho alto = .ok cuadro) :
    List.Pairwise Disjuntas
      [cuadro.memoria, cuadro.cpu, cuadro.red, cuadro.interfaces, cuadro.uptime,
        cuadro.tablaRAM ++ cuadro.tablaCPU] ∧
    ∀ c ∈ cuadro.tablaRAM ++ cuadro.tablaCPU, 15 ≤ c.y ∧ (17 ≤ c.y → c.y < alto - 1) := by
  obtain ⟨m, u, us, n, ns, -, -, -, hmem, hcpu, hred, hint, hup, hram, hcpuT⟩ :=
    actualizarPantalla_campos _ _ _ _ _ h
  generalize hN : (obtenerInfoInterfacesRed l.interfaces l.netStats) = infos at hint hup hram hcpuT
  generalize hM : (if (infos.length : Int) < 3 then (infos.length : Int) else 3) = maxI
    at hup hram hcpuT
  have hM0 : 0 ≤ maxI ∧ maxI ≤ 3 ∧ maxI ≤ infos.length ∧
      ((infos.length : Int) < 3 → maxI = infos.length) ∧
      (3 ≤ (infos.length : Int) → maxI = 3) := by
    rw [← hM]
    split <;> omega
  have fmem : ∀ c ∈ cuadro.memoria, c.y = 1 ∨ c.y = 2 := by
    intro c hc
    rw [hmem] at hc
    have := dibujarBarra_filas _ _ _ _ _ _ c hc
    omega
  have fcpu : ∀ c ∈ cuadro.cpu, c.y = 4 ∨ c.y = 5 := by
    intro c hc
    rw [hcpu] at hc
    have := dibujarBarra_filas _ _ _ _ _ _ c hc
    omega
  have fred : ∀ c ∈ cuadro.red, c.y = 7 := by
    intro c hc
    rw [hred] at hc
    exact (dibujarTexto_celda _ _ _ _ c hc).1
  have fint : ∀ c ∈ cuadro.interfaces,
      c.y = 9 ∨ (10 ≤ c.y ∧ c.y ≤ 13 ∧ c.y < 10 + (infos.length : Int)) := by
    intro c hc
    rw [hint] at hc
    rcases List.mem_append.mp hc with hc | hc
    · exact Or.inl (dibujarTexto_celda _ _ _ _ c hc).1
    · have := dibujarInterfaces_filas infos 0 c hc
      right
      push_cast at this
      omega
  have fup : ∀ c ∈ cuadro.uptime, c.y = 11 + maxI := by
    intro c hc
    rw [hup] at hc
    exact (dibujarTexto_celda _ _ _ _ c hc).1
  have ftab : ∀ c ∈ cuadro.tablaRAM ++ cuadro.tablaCPU,
      15 ≤ c.y ∧ (17 ≤ c.y → c.y < alto - 1) := by
    intro c hc
    rcases List.mem_append.mp hc with hc | hc
    · rw [hram] at hc
      have := dibujarTabla_filas _ _ _ _ _ _ c hc
      omega
    · rw [hcpuT] at hc
      have := dibujarTabla_filas _ _ _ _ _ _ c hc
      omega
  refine ⟨?_, ftab⟩
  simp only [List.pairwise_cons, List.mem_cons, List.mem_singleton, forall_eq_or_imp,
    forall_eq, List.not_mem_nil, false_imp_iff, implies_true, List.Pairwise.nil, and_true]
  refine ⟨⟨?_, ?_, ?_, ?_, ?_⟩, ⟨?_, ?_, ?_, ?_⟩, ⟨?_, ?_, ?_⟩, ⟨?_, ?_⟩, ?_⟩
  · exact disjuntas_por_filas _ _ (fun r => r = 1 ∨ r = 2)
      (fun r => r = 4 ∨ r = 5) fmem fcpu
      (by intro r h1 h2; omega)
  · exact disjuntas_por_filas _ _ (fun r => r = 1 ∨ r = 2)
      (fun r => r = 7) fmem fred
      (by intro r h1 h2; omega)
  · exact disjuntas_por_filas _ _ (fun r => r = 1 ∨ r = 2)
      (fun r => r = 9 ∨ (10 ≤ r ∧ r ≤ 13 ∧ r < 10 + (infos.length : Int))) fmem fint
      (by intro r h1 h2; omega)
  · exact disjuntas_por_filas _ _ (fun r => r = 1 ∨ r = 2)
      (fun r => r = 11 + maxI) fmem fup
      (by intro r h1 h2; omega)
  · exact disjuntas_por_filas _ _ (fun r => r = 1 ∨ r = 2)
      (fun r => 15 ≤ r ∧ (17 ≤ r → r < alto - 1)) fmem ftab
      (by intro r h1 h2; omega)
  · exact disjuntas_por_filas _ _ (fun r => r = 4 ∨ r = 5)
      (fun r => r = 7) fcpu fred
      (by intro r h1 h2; omega)
  · exact disjuntas_por_filas _ _ (fun r => r = 4 ∨ r = 5)
      (fun r => r = 9 ∨ (10 ≤ r ∧ r ≤ 13 ∧ r < 10 + (infos.length : Int))) fcpu fint
      (by intro r h1 h2; omega)
  · exact disjuntas_por_filas _ _ (fun r => r = 4 ∨ r = 5)
      (fun r => r = 11 + maxI) fcpu fup
      (by intro r h1 h2; omega)
  · exact disjuntas_por_filas _ _ (fun r => r = 4 ∨ r = 5)
      (fun r => 15 ≤ r ∧ (17 ≤ r → r < alto - 1)) fcpu ftab
      (by intro r h1 h2; omega)
  · exact disjuntas_por_filas _ _ (fun r => r = 7)
      (fun r => r = 9 ∨ (10 ≤ r ∧ r ≤ 13 ∧ r < 10 + (infos.length : Int))) fred fint
      (by intro r h1 h2; omega)
  · exact disjuntas_por_filas _ _ (fun r => r = 7)
      (fun r => r = 11 + maxI) fred fup
      (by intro r h1 h2; omega)
  · exact disjuntas_por_filas _ _ (fun r => r = 7)
      (fun r => 15 ≤ r ∧ (17 ≤ r → r < alto - 1)) fred ftab
      (by intro r h1 h2; omega)
  · exact disjuntas_por_filas _ _ (fun r => r = 9 ∨ (10 ≤ r ∧ r ≤ 13 ∧ r < 10 + (infos.length : Int)))
      (fun r => r = 11 + maxI) fint fup
      (by intro r h1 h2; omega)
  · exact disjuntas_por_filas _ _ (fun r => r = 9 ∨ (10 ≤ r ∧ r ≤ 13 ∧ r < 10 + (infos.length : Int)))
      (fun r => 15 ≤ r ∧ (17 ≤ r → r < alto - 1)) fint ftab
      (by intro r h1 h2; omega)
  · exact disjuntas_por_filas _ _ (fun r => r = 11 + maxI)
      (fun r => 15 ≤ r ∧ (17 ≤ r → r < alto - 1)) fup ftab
      (by intro r h1 h2; omega)

/-- C5 amended, at an instance: the healthy reading on a terminal of 80 by 24. -/
theorem actualizarPantalla_filas_disjuntas_witness :
    ∃ cuadro, actualizarPantalla insertionSortLessFunc lecturaSana 80 24 = .ok cuadro ∧
      List.Pairwise Disjuntas
        [cuadro.memoria, cuadro.cpu, cuadro.red, cuadro.interfaces, cuadro.uptime,
          cuadro.tablaRAM ++ cuadro.tablaCPU] :=
  ⟨_, rfl, (actualizarPantalla_filas_disjuntas insertionSortLessFunc lecturaSana 80 24 _ rfl).1⟩

/-! ## Names -/

theorem decodificarRuna_ascii (b : UInt8) (resto : GoString) (hb : b < 0x80) :
    decodificarRuna (b :: resto) = (Char.ofNat b.toNat, 1) := by
  simp [decodificarRuna, hb]

theorem contarRunas_ascii (s : GoString) (hs : EsASCII s) : contarRunas s = s.length := by
  unfold contarRunas
  induction s with
  | nil => rfl
  | cons b resto ih =>
    have hb : b < 0x80 := hs b (List.mem_cons_self b resto)
    have hr : EsASCII resto := fun c hc => hs c (List.mem_cons_of_mem b hc)
    simp only [contarRunasDesde, decodificarRuna_ascii b resto hb, Nat.sub_self, ih hr,
      List.length_cons]
    omega

theorem runas_ascii (s : GoString) (hs : EsASCII s) :
    runas s = s.map (fun b => Char.ofNat b.toNat) := by
  unfold runas
  induction s with
  | nil => rfl
  | cons b resto ih =>
    have hb : b < 0x80 := hs b (List.mem_cons_self b resto)
    have hr : EsASCII resto := fun c hc => hs c (List.mem_cons_of_mem b hc)
    simp only [runasDesde, decodificarRuna_ascii b resto hb, Nat.sub_self, ih hr, List.map_cons]

theorem recorte_ascii (s : GoString) (hs : EsASCII s) : EsASCII (s.take 17 ++ lit "...") := by
  intro b hb
  rcases List.mem_append.mp hb with h | h
  · exact hs b (List.mem_of_mem_take h)
  · have hpuntos : lit "..." = [46, 46, 46] := by decide
    rw [hpuntos] at h
    simp only [List.mem_cons, List.mem_singleton, List.not_mem_nil, or_false, or_self] at h
    rw [h]
    decide

theorem cortar_corto (s : GoString) (h : s.length ≤ 20) : cortar s 20 = .ok s := by
  unfold cortar
  rw [if_pos (by exact_mod_cast h)]

theorem cortar_largo (s : GoString) (h : 20 < s.length) :
    cortar s 20 = .ok (s.take 17 ++ lit "...") := by
  unfold cortar
  rw [if_neg (by omega), if_neg (by decide)]
  rfl

/-- C11 as stated fails on names that are not ASCII, since `cortar` measures and cuts in
bytes.  A name of 11 characters `ñ` takes 22 bytes: it is not returned unchanged but cut
to 8 characters, one stray byte and the three dots, 12 runes in all.  A name of 25
characters `ñ` is cut to the same 20 bytes: 12 runes, not 20, and not the first 17
characters of the name followed by the dots. -/
theorem cortar_caracteres_contraejemplo :
    (contarRunas nombreEnie = 11 ∧
      cortar nombreEnie 20 = .ok (lit "ññññññññ" ++ [0xC3] ++ lit "...") ∧
      cortar nombreEnie 20 ≠ .ok nombreEnie ∧
      contarRunas (lit "ññññññññ" ++ [0xC3] ++ lit "...") = 12) ∧
    (contarRunas nombreEnieLargo = 25 ∧
      cortar nombreEnieLargo 20 = .ok (lit "ññññññññ" ++ [0xC3] ++ lit "...") ∧
      runas (lit "ññññññññ" ++ [0xC3] ++ lit "...")
        ≠ (runas nombreEnieLargo).take 17 ++ ['.', '.', '.']) := by
  have h1 : cortar nombreEnie 20 = .ok (lit "ññññññññ" ++ [0xC3] ++ lit "...") := by
    rw [cortar_largo nombreEnie (by decide)]
    exact congrArg Except.ok (by decide)
  have h2 : cortar nombreEnieLargo 20 = .ok (lit "ññññññññ" ++ [0xC3] ++ lit "...") := by
    rw [cortar_largo nombreEnieLargo (by decide)]
    exact congrArg Except.ok (by decide)
  refine ⟨⟨by decide, h1, ?_, by decide⟩, by decide, h2, by decide⟩
  rw [h1]
  intro h
  have hlen := congrArg (fun r => match r with
    | Except.ok (t : GoString) => t.length
    | Except.error _ => 0) h
  revert hlen
  decide

/-- C11, amended: `cortar(s, 20)` measures the name in bytes.  A name of at most 20 bytes
is returned unchanged; a longer one yields exactly 20 bytes, the first 17 bytes of the name
followed by `...`.  For a name of ASCII characters only, bytes are characters: at most 20
characters are returned unchanged, and more than 20 yield exactly 20 characters, the first
17 characters of the name followed by `...`. -/
theorem cortar_veinte_bytes (s : GoString) :
    (s.length ≤ 20 → cortar s 20 = .ok s) ∧
    (20 < s.length →
      cortar s 20 = .ok (s.take 17 ++ lit "...") ∧ (s.take 17 ++ lit "...").length = 20) ∧
    (EsASCII s →
      (contarRunas s ≤ 20 → cortar s 20 = .ok s) ∧
      (20 < contarRunas s →
        ∃ r, cortar s 20 = .ok r ∧ contarRunas r = 20 ∧
          runas r = (runas s).take 17 ++ ['.', '.', '.'])) := by
  have hpuntos : lit "..." = [46, 46, 46] := by decide
  have hlargo : 20 < s.length → (s.take 17 ++ lit "...").length = 20 := by
    intro h
    rw [List.length_append, List.length_take, hpuntos]
    simp only [List.length_cons, List.length_nil]
    omega
  refine ⟨cortar_corto s, fun h => ⟨cortar_largo s h, hlargo h⟩, ?_⟩
  intro hs
  have hcuenta := contarRunas_ascii s hs
  refine ⟨fun h => cortar_corto s (by omega), fun h => ?_⟩
  have hlen : 20 < s.length := by omega
  refine ⟨s.take 17 ++ lit "...", cortar_largo s hlen, ?_, ?_⟩
  · rw [contarRunas_ascii _ (recorte_ascii s hs)]
    exact hlargo hlen
  · rw [runas_ascii _ (recorte_ascii s hs), runas_ascii s hs, List.map_append, List.map_take,
      hpuntos]
    rfl

/-- C11 amended, at an instance: a name of 25 ASCII characters. -/
theorem cortar_veinte_bytes_witness :
    20 < nombreLargo.length ∧ EsASCII nombreLargo ∧ 20 < contarRunas nombreLargo ∧
    cortar nombreLargo 20 = .ok (nombreLargo.take 17 ++ lit "...") ∧
    (nombreLargo.take 17 ++ lit "...") = lit "un_nombre_de_proc..." ∧
    ∃ r, cortar nombreLargo 20 = .ok r ∧ contarRunas r = 20 ∧
      runas r = (runas nombreLargo).take 17 ++ ['.', '.', '.'] :=
  ⟨by decide, by unfold EsASCII; decide, by decide,
    ((cortar_veinte_bytes nombreLargo).2.1 (by decide)).1, by decide,
    ((cortar_veinte_bytes nombreLargo).2.2 (by unfold EsASCII; decide)).2 (by decide)⟩

end Monitor
